import Mathlib

/-!
Verification development for the `mc_renderer` block-model resolution and
mesh-generation pipeline.  The Rust source is shallowly embedded: pure
functions become Lean functions over `ℚ`, `ℤ`, `Nat`, `String` and lists;
hash maps become association lists (lookup returns the most recently
inserted binding, matching `HashMap` lookup behaviour for the operations
the source performs); `f32` arithmetic is idealized over `ℚ` (the source
only adds, subtracts, multiplies, divides and clamps, and rotates by
multiples of 90 degrees, all of which are exact over `ℚ`); fallible code
returns `Option` or an explicit outcome type.
-/

namespace McRenderer

/-- Association-list lookup: first binding wins (models `HashMap::get`,
given that our insertions prepend the freshest binding). -/
def lookupA {α : Type} (l : List (String × α)) (k : String) : Option α :=
  match l with
  | [] => none
  | (k', v) :: rest => if k' = k then some v else lookupA rest k

/-! ### Texture indirection (`resolve_textures_completely`,
`src/resources/textures.rs` lines 152-169 and `src/main.rs` lines 595-611;
the two copies are identical).

The Rust loop
```
loop {
    if let Some(target) = texture.strip_prefix('#') {
        texture = textures[target].0.as_str();
    } else { break; }
}
```
follows `#`-references inside the original table.  Indexing with a missing
key panics (the `Index` impl of the underlying hash map), and a looping
chain never leaves the `loop`.  We embed the loop with explicit fuel and an
outcome type distinguishing the three behaviours. -/

inductive ChaseRes where
  | resolved (s : String)
  | panicked
  | outOfFuel
  deriving DecidableEq, Repr

/-- One texture value being chased through the table.  Fuel is consumed
only when a `#`-reference is followed, so a literal value resolves at any
fuel; `outOfFuel` at every fuel means the Rust loop does not terminate. -/
def chase (tex : List (String × String)) : Nat → String → ChaseRes
  | 0, t =>
    match t.data with
    | '#' :: _ => .outOfFuel
    | _ => .resolved t
  | n + 1, t =>
    match t.data with
    | '#' :: target =>
      match lookupA tex (String.mk target) with
      | some v => chase tex n v
      | none => .panicked
    | _ => .resolved t

/-- Resolution outcome for one texture variable of the table: the source
iterates over the entries and chases each entry's value through the
original table. -/
def resolveVar (tex : List (String × String)) (fuel : Nat) (name : String) : ChaseRes :=
  match lookupA tex name with
  | some v => chase tex fuel v
  | none => .panicked

/-- The Rust `loop` never terminates on this start value: every finite
amount of fuel is exhausted while the value still carries a `#` prefix. -/
def chaseDiverges (tex : List (String × String)) (t : String) : Prop :=
  ∀ fuel, chase tex fuel t = .outOfFuel

/-- Concrete two-step chain `a → #b`, `b → "block/stone"`. -/
def chainTex : List (String × String) := [("a", "#b"), ("b", "block/stone")]

/-- Concrete table with a dangling reference. -/
def danglingTex : List (String × String) := [("a", "#zzz")]

/-- Concrete self-referential table `a → #a`. -/
def cycTex : List (String × String) := [("a", "#a")]

/-! ### Atlas tile transparency classification.

Two builders exist in the source.  `create_texture_atlas` in
`src/resources/textures.rs` (lines 129-142) flags a tile when some pixel's
alpha is neither `u8::MAX` nor `0`; the older copy in `src/main.rs`
(lines 111-126) flags a tile when some pixel's alpha differs from
`u8::MAX` alone.  The pixel buffer is embedded as an alpha function and a
tile as half-open pixel ranges, exactly the `for` ranges of the source. -/

/-- `src/resources/textures.rs` rule: `pixel.0[3] != u8::MAX && pixel.0[3] != 0`. -/
def tileTransparencyTex (alpha : Nat → Nat → Nat) (x0 x1 y0 y1 : Nat) : Bool :=
  (List.range' x0 (x1 - x0)).any fun x =>
    (List.range' y0 (y1 - y0)).any fun y =>
      alpha x y ≠ 255 && alpha x y ≠ 0

/-- `src/main.rs` rule: `pixel.0[3] != u8::MAX`. -/
def tileTransparencyMain (alpha : Nat → Nat → Nat) (x0 x1 y0 y1 : Nat) : Bool :=
  (List.range' x0 (x1 - x0)).any fun x =>
    (List.range' y0 (y1 - y0)).any fun y =>
      alpha x y ≠ 255

/-! ### Block palette (`BlockPalette`, `src/block.rs` lines 487-512). -/

structure BlockPalette where
  blocks : List String
  map : List (String × Nat)
  deriving DecidableEq, Repr

/-- `Default for BlockPalette`: air is pre-seeded at index 0. -/
def paletteDefault : BlockPalette :=
  { blocks := ["minecraft:air"], map := [("minecraft:air", 0)] }

/-- `BlockPalette::get_or_add`. -/
def getOrAdd (p : BlockPalette) (name : String) : Nat × BlockPalette :=
  match lookupA p.map name with
  | some idx => (idx, p)
  | none =>
    let idx := p.blocks.length
    (idx, { blocks := p.blocks ++ [name], map := (name, idx) :: p.map })

/-- Palette reached after a sequence of `get_or_add` calls from the default. -/
def applySeq (seq : List String) : BlockPalette :=
  seq.foldl (fun p s => (getOrAdd p s).2) paletteDefault

/-- First-seen insertion used to characterize the block list. -/
def insertNew (acc : List String) (s : String) : List String :=
  if s ∈ acc then acc else acc ++ [s]

/-- Well-formedness invariant tying the index map to the block list. -/
def PaletteWF (p : BlockPalette) : Prop :=
  (∀ s, lookupA p.map s = none ↔ s ∉ p.blocks) ∧
  (∀ s i, lookupA p.map s = some i → p.blocks.get? i = some s) ∧
  p.blocks.Nodup

/-! ### Tint resolver (`get_tint_for_block`, `src/block.rs` lines 61-86;
identical computations in `src/main.rs` lines 136-161 and
`src/mesh.rs` lines 60-85). -/

structure ColorQ where
  r : ℚ
  g : ℚ
  b : ℚ
  deriving DecidableEq, Repr

def colorWhite : ColorQ := ⟨1, 1, 1⟩

def clampQ (v lo hi : ℚ) : ℚ := max lo (min v hi)

def digitVal (c : Char) : Option Nat :=
  if '0' ≤ c ∧ c ≤ '9' then some (c.toNat - '0'.toNat) else none

def parseNatChars (l : List Char) : Option Nat :=
  l.foldl (fun acc c => acc.bind fun n => (digitVal c).map fun d => n * 10 + d)
    (if l.isEmpty then none else some 0)

def parseIntChars (l : List Char) : Option Int :=
  match l with
  | '-' :: rest => (parseNatChars rest).map fun n => -(n : Int)
  | _ => (parseNatChars l).map fun n => (n : Int)

/-- The block properties are string-valued (`decode_props` only ever builds
`StateValue::String`); `str.parse::<f32>().unwrap_or_default()` is embedded
on the integer-form strings the `power` property takes — optional sign and
decimal digits — with fallback `0` on anything unparsable. -/
def parsePowerQ (s : String) : ℚ :=
  match parseIntChars s.data with
  | some n => (n : ℚ)
  | none => 0

/-- `get_tint_for_block`.  The unknown-tint branch logs a warning and
returns opaque white. -/
def get_tint_for_block (blockName : String) (blockProps : List (String × String))
    (tintIdx : Nat) : ColorQ :=
  if blockName = "minecraft:redstone_wire" ∧ tintIdx = 0 then
    let power : ℚ :=
      match lookupA blockProps "power" with
      | some s => parsePowerQ s
      | none => 0
    let f := power / 15
    let r := f * (6/10) + (if f > 0 then (4:ℚ)/10 else (3:ℚ)/10)
    let g := clampQ (f * f * (7/10) - 5/10) 0 1
    let b := clampQ (f * f * (6/10) - 7/10) 0 1
    ⟨r, g, b⟩
  else
    colorWhite

/-! ### Rational geometry.

The mesh generator's `f32` arithmetic is idealized over `ℚ`.  Model-level
rotations are multiples of 90 degrees (`x, y ∈ {0, 90, 180, 270}` in the
data model), whose sines and cosines are exact rationals; an element's own
rotation angle enters the source only through the sine and cosine of the
declared angle, so it is embedded as that pair of rationals. -/

structure Vec3Q where
  x : ℚ
  y : ℚ
  z : ℚ
  deriving DecidableEq, Repr

structure Vec2Q where
  x : ℚ
  y : ℚ
  deriving DecidableEq, Repr

instance : Add Vec3Q := ⟨fun a b => ⟨a.x + b.x, a.y + b.y, a.z + b.z⟩⟩

instance : Sub Vec3Q := ⟨fun a b => ⟨a.x - b.x, a.y - b.y, a.z - b.z⟩⟩

def Vec3Q.scale (q : ℚ) (v : Vec3Q) : Vec3Q := ⟨q * v.x, q * v.y, q * v.z⟩

/-- Exact cosine of an integer number of degrees, for multiples of 90. -/
def cosQ (d : ℤ) : ℚ :=
  if d % 360 = 0 then 1 else if d % 360 = 180 then -1 else 0

/-- Exact sine of an integer number of degrees, for multiples of 90. -/
def sinQ (d : ℤ) : ℚ :=
  if d % 360 = 90 then 1 else if d % 360 = 270 then -1 else 0

/-- A planar rotation, carried as the cosine/sine pair of its angle. -/
structure Rot2 where
  c : ℚ
  s : ℚ
  deriving DecidableEq, Repr

def rotDeg (d : ℤ) : Rot2 := ⟨cosQ d, sinQ d⟩

inductive Axis3 where
  | x
  | y
  | z
  deriving DecidableEq, Repr

/-- `Quat::from_rotation_x` applied to a vector (right-handed). -/
def rotXr (r : Rot2) (v : Vec3Q) : Vec3Q :=
  ⟨v.x, r.c * v.y - r.s * v.z, r.s * v.y + r.c * v.z⟩

/-- `Quat::from_rotation_y` applied to a vector (right-handed). -/
def rotYr (r : Rot2) (v : Vec3Q) : Vec3Q :=
  ⟨r.c * v.x + r.s * v.z, v.y, -r.s * v.x + r.c * v.z⟩

/-- `Quat::from_rotation_z` applied to a vector (right-handed). -/
def rotZr (r : Rot2) (v : Vec3Q) : Vec3Q :=
  ⟨r.c * v.x - r.s * v.y, r.s * v.x + r.c * v.y, v.z⟩

def rotAxis (a : Axis3) (r : Rot2) : Vec3Q → Vec3Q :=
  match a with
  | .x => rotXr r
  | .y => rotYr r
  | .z => rotZr r

/-- `rot_vert_with_orig` (`src/block.rs` lines 236-240): translate the
rotation origin to the coordinate origin, rotate, translate back. -/
def rot_vert_with_orig (R : Vec3Q → Vec3Q) (orig v : Vec3Q) : Vec3Q :=
  R (v - orig) + orig

/-- `rotate_uv_with_orig` (`src/block.rs` lines 242-249): embeds the UV as
the xz-plane, rotates about the Y axis by the given angle (in degrees,
source passes it in radians) around the given origin. -/
def rotate_uv_with_orig (d : ℤ) (orig uv : Vec2Q) : Vec2Q :=
  let r := rot_vert_with_orig (rotYr (rotDeg d)) ⟨orig.x, 0, orig.y⟩ ⟨uv.x, 0, uv.y⟩
  ⟨r.x, r.z⟩

/-- 3×3 matrices, for the normal transform. -/
structure Mat3Q where
  m00 : ℚ
  m01 : ℚ
  m02 : ℚ
  m10 : ℚ
  m11 : ℚ
  m12 : ℚ
  m20 : ℚ
  m21 : ℚ
  m22 : ℚ
  deriving DecidableEq, Repr

def Mat3Q.mulVec (m : Mat3Q) (v : Vec3Q) : Vec3Q :=
  ⟨m.m00 * v.x + m.m01 * v.y + m.m02 * v.z,
   m.m10 * v.x + m.m11 * v.y + m.m12 * v.z,
   m.m20 * v.x + m.m21 * v.y + m.m22 * v.z⟩

def mat3Mul (a b : Mat3Q) : Mat3Q :=
  ⟨a.m00 * b.m00 + a.m01 * b.m10 + a.m02 * b.m20,
   a.m00 * b.m01 + a.m01 * b.m11 + a.m02 * b.m21,
   a.m00 * b.m02 + a.m01 * b.m12 + a.m02 * b.m22,
   a.m10 * b.m00 + a.m11 * b.m10 + a.m12 * b.m20,
   a.m10 * b.m01 + a.m11 * b.m11 + a.m12 * b.m21,
   a.m10 * b.m02 + a.m11 * b.m12 + a.m12 * b.m22,
   a.m20 * b.m00 + a.m21 * b.m10 + a.m22 * b.m20,
   a.m20 * b.m01 + a.m21 * b.m11 + a.m22 * b.m21,
   a.m20 * b.m02 + a.m21 * b.m12 + a.m22 * b.m22⟩

def mat3Transpose (m : Mat3Q) : Mat3Q :=
  ⟨m.m00, m.m10, m.m20, m.m01, m.m11, m.m21, m.m02, m.m12, m.m22⟩

def mat3Det (m : Mat3Q) : ℚ :=
  m.m00 * (m.m11 * m.m22 - m.m12 * m.m21)
    - m.m01 * (m.m10 * m.m22 - m.m12 * m.m20)
    + m.m02 * (m.m10 * m.m21 - m.m11 * m.m20)

/-- Matrix inverse by adjugate.  The source inverts the 4×4 transform of a
rotation, which is always invertible; a singular input (impossible here)
yields the zero matrix rather than the source's `f32` non-finite values. -/
def mat3Inv (m : Mat3Q) : Mat3Q :=
  let d := mat3Det m
  if d = 0 then ⟨0, 0, 0, 0, 0, 0, 0, 0, 0⟩
  else
    let i := d⁻¹
    ⟨i * (m.m11 * m.m22 - m.m12 * m.m21),
     i * (m.m02 * m.m21 - m.m01 * m.m22),
     i * (m.m01 * m.m12 - m.m02 * m.m11),
     i * (m.m12 * m.m20 - m.m10 * m.m22),
     i * (m.m00 * m.m22 - m.m02 * m.m20),
     i * (m.m02 * m.m10 - m.m00 * m.m12),
     i * (m.m10 * m.m21 - m.m11 * m.m20),
     i * (m.m01 * m.m20 - m.m00 * m.m21),
     i * (m.m00 * m.m11 - m.m01 * m.m10)⟩

def matXr (r : Rot2) : Mat3Q := ⟨1, 0, 0, 0, r.c, -r.s, 0, r.s, r.c⟩

def matYr (r : Rot2) : Mat3Q := ⟨r.c, 0, r.s, 0, 1, 0, -r.s, 0, r.c⟩

def matZr (r : Rot2) : Mat3Q := ⟨r.c, -r.s, 0, r.s, r.c, 0, 0, 0, 1⟩

def matAxis (a : Axis3) (r : Rot2) : Mat3Q :=
  match a with
  | .x => matXr r
  | .y => matYr r
  | .z => matZr r

/-- `FloatExt::lerp` as the source uses it: `a + (b - a) * t`. -/
def lerpQ (a b t : ℚ) : ℚ := a + (b - a) * t

/-! ### Texture atlas lookup interface.

`TextureAtlas::get_tex_details` normalizes the packed pixel rectangle and
pairs it with the tile's transparency flag; a name that was never packed
panics in the source.  The mesh generator only consumes the resulting
details, so the atlas is embedded as a total lookup map from texture names
to details. -/

structure RectQ where
  minx : ℚ
  miny : ℚ
  maxx : ℚ
  maxy : ℚ
  deriving DecidableEq, Repr

structure TexDetails where
  rect : RectQ
  has_transparency : Bool
  deriving DecidableEq, Repr

/-- `TextureDetails::get_atlas_uvs`. -/
def getAtlasUVs (td : TexDetails) (uv : Vec2Q) : Vec2Q :=
  ⟨lerpQ td.rect.minx td.rect.maxx uv.x, lerpQ td.rect.miny td.rect.maxy uv.y⟩

structure TextureAtlasQ where
  getTexDetails : String → TexDetails

/-! ### Elements, faces and the element mesher (`element_mesh`,
`src/block.rs` lines 88-234). -/

structure ElementFaceQ where
  texture : String
  uv : Option (ℚ × ℚ × ℚ × ℚ)
  deriving DecidableEq, Repr

structure ElementRotationQ where
  origin : Vec3Q
  axis : Axis3
  rot : Rot2
  deriving DecidableEq, Repr

structure ElementQ where
  efrom : Vec3Q
  eto : Vec3Q
  up : Option ElementFaceQ
  down : Option ElementFaceQ
  east : Option ElementFaceQ
  west : Option ElementFaceQ
  south : Option ElementFaceQ
  north : Option ElementFaceQ
  rotation : ElementRotationQ
  deriving DecidableEq, Repr

/-- Models `Texture::resolve` of the external `minecraft-assets` crate:
follows `#`-references through the variable table and returns `none` when a
referenced variable is undefined (or the chain never ends). -/
def texResolve (textures : List (String × String)) : Nat → String → Option String
  | 0, _ => none
  | n + 1, t =>
    match t.data with
    | '#' :: target =>
      match lookupA textures (String.mk target) with
      | some v => texResolve textures n v
      | none => none
    | _ => some t

def faceTexResolve (textures : List (String × String)) (t : String) : Option String :=
  texResolve textures (textures.length + 1) t

structure MeshData where
  positions : List Vec3Q
  normals : List Vec3Q
  uvs : List Vec2Q
  indices : List Nat
  deriving DecidableEq, Repr

def MeshData.empty : MeshData := ⟨[], [], [], []⟩

/-- Concatenating two accumulated meshes: vertex attributes append, and the
second mesh's indices shift by the first mesh's vertex count. -/
def MeshData.append (a b : MeshData) : MeshData :=
  ⟨a.positions ++ b.positions, a.normals ++ b.normals, a.uvs ++ b.uvs,
   a.indices ++ b.indices.map (· + a.positions.length)⟩

/-- The data of one of the six `element.faces.get(..)` branches: the face
descriptor (when the element declares that face), the four corner positions
with their default UV corners in the source's winding order, the constant
normal, and the `use_x_rot` flag the branch passes. -/
structure FaceEntry where
  face? : Option ElementFaceQ
  corners : List (Vec3Q × Vec2Q)
  normal : Vec3Q
  useXRot : Bool
  deriving DecidableEq, Repr

/-- The six face branches of `element_mesh`, in source order
(Up, Down, East, West, South, North), with the corner data written exactly
as in `src/block.rs` lines 144-221. -/
def faceTable (e : ElementQ) : List FaceEntry :=
  let mi := e.efrom
  let ma := e.eto
  [⟨e.up,
    [(⟨ma.x, ma.y, mi.z⟩, ⟨1, 0⟩), (⟨mi.x, ma.y, mi.z⟩, ⟨0, 0⟩),
     (⟨mi.x, ma.y, ma.z⟩, ⟨0, 1⟩), (⟨ma.x, ma.y, ma.z⟩, ⟨1, 1⟩)],
    ⟨0, 1, 0⟩, false⟩,
   ⟨e.down,
    [(⟨ma.x, mi.y, ma.z⟩, ⟨0, 0⟩), (⟨mi.x, mi.y, ma.z⟩, ⟨1, 0⟩),
     (⟨mi.x, mi.y, mi.z⟩, ⟨1, 1⟩), (⟨ma.x, mi.y, mi.z⟩, ⟨0, 1⟩)],
    ⟨0, -1, 0⟩, false⟩,
   ⟨e.east,
    [(⟨ma.x, mi.y, mi.z⟩, ⟨1, 1⟩), (⟨ma.x, ma.y, mi.z⟩, ⟨1, 0⟩),
     (⟨ma.x, ma.y, ma.z⟩, ⟨0, 0⟩), (⟨ma.x, mi.y, ma.z⟩, ⟨0, 1⟩)],
    ⟨1, 0, 0⟩, true⟩,
   ⟨e.west,
    [(⟨mi.x, mi.y, ma.z⟩, ⟨1, 1⟩), (⟨mi.x, ma.y, ma.z⟩, ⟨1, 0⟩),
     (⟨mi.x, ma.y, mi.z⟩, ⟨0, 0⟩), (⟨mi.x, mi.y, mi.z⟩, ⟨0, 1⟩)],
    ⟨-1, 0, 0⟩, true⟩,
   ⟨e.south,
    [(⟨mi.x, mi.y, ma.z⟩, ⟨0, 1⟩), (⟨ma.x, mi.y, ma.z⟩, ⟨1, 1⟩),
     (⟨ma.x, ma.y, ma.z⟩, ⟨1, 0⟩), (⟨mi.x, ma.y, ma.z⟩, ⟨0, 0⟩)],
    ⟨0, 0, 1⟩, true⟩,
   ⟨e.north,
    [(⟨mi.x, ma.y, mi.z⟩, ⟨0, 0⟩), (⟨ma.x, ma.y, mi.z⟩, ⟨1, 0⟩),
     (⟨ma.x, mi.y, mi.z⟩, ⟨1, 1⟩), (⟨mi.x, mi.y, mi.z⟩, ⟨0, 1⟩)],
    ⟨0, 0, -1⟩, true⟩]

/-- Remap a default UV corner through the face's explicit UV rectangle when
declared (`if let Some(model_uv) = face.uv`). -/
def applyFaceUV (face : ElementFaceQ) (nuv : Vec2Q) : Vec2Q :=
  match face.uv with
  | some (u0, v0, u1, v1) => ⟨lerpQ (u0 / 16) (u1 / 16) nuv.x, lerpQ (v0 / 16) (v1 / 16) nuv.y⟩
  | none => nuv

/-- The `common_face` closure of `src/block.rs` lines 104-142: skip the
face when its texture fails to resolve, otherwise push 6 indices over the
current vertex base, 4 copies of the normal and 4 position/UV pairs, where
each UV is remapped by the face UV rectangle, rotated about (0.5, 0.5) by
the applicable UV-lock angle, and mapped into the atlas tile. -/
def common_face (atlas : TextureAtlasQ) (textures : List (String × String)) (uvRot : ℤ × ℤ)
    (st : MeshData × Bool) (fe : FaceEntry) (face : ElementFaceQ) : MeshData × Bool :=
  match faceTexResolve textures face.texture with
  | none => st
  | some texName =>
    let td := atlas.getTexDetails texName
    let hasT := st.2 || td.has_transparency
    let base := st.1.positions.length
    let verts := fe.corners.map fun c =>
      let uv0 := applyFaceUV face c.2
      let rotd := if fe.useXRot then uvRot.1 else uvRot.2
      (c.1, getAtlasUVs td (rotate_uv_with_orig rotd ⟨1/2, 1/2⟩ uv0))
    (⟨st.1.positions ++ verts.map Prod.fst,
      st.1.normals ++ List.replicate 4 fe.normal,
      st.1.uvs ++ verts.map Prod.snd,
      st.1.indices ++ [0, 1, 2, 2, 3, 0].map (· + base)⟩, hasT)

def stepFace (atlas : TextureAtlasQ) (textures : List (String × String)) (uvRot : ℤ × ℤ)
    (st : MeshData × Bool) (fe : FaceEntry) : MeshData × Bool :=
  match fe.face? with
  | none => st
  | some f => common_face atlas textures uvRot st fe f

/-- `element_mesh` (`src/block.rs`): fold the six face branches. -/
def element_mesh (e : ElementQ) (atlas : TextureAtlasQ) (textures : List (String × String))
    (uvRot : ℤ × ℤ) : MeshData × Bool :=
  (faceTable e).foldl (stepFace atlas textures uvRot) (MeshData.empty, false)

/-! ### Block mesher (`create_mesh_for_block`, `src/block.rs` lines 257-372). -/

structure ProcessedModelQ where
  model_rot : ℤ × ℤ
  uv_lock : Bool
  textures : List (String × String)
  elements : List ElementQ
  deriving Repr

/-- The model-level rotation applied to vertices:
`Quat::from_rotation_y(-y°) * Quat::from_rotation_x(-x°)`, the X rotation
acting first. -/
def modelRotFun (mr : ℤ × ℤ) (v : Vec3Q) : Vec3Q :=
  rotYr (rotDeg (-mr.2)) (rotXr (rotDeg (-mr.1)) v)

def modelRotMat (mr : ℤ × ℤ) : Mat3Q :=
  mat3Mul (matYr (rotDeg (-mr.2))) (matXr (rotDeg (-mr.1)))

def elemRotFun (r : ElementRotationQ) : Vec3Q → Vec3Q := rotAxis r.axis r.rot

def elemRotMat (r : ElementRotationQ) : Mat3Q := matAxis r.axis r.rot

/-- The per-normal transform: inverse-transpose of the composed rotation
matrix.  The source additionally renormalizes each transformed normal
(`normalize_or_zero`); unit normalization takes a square root, which has no
exact rational counterpart, and no verified property inspects normal
values (only their count), so the embedding keeps the transformed vector
unnormalized. -/
def xformNormal (m : Mat3Q) (n : Vec3Q) : Vec3Q :=
  (mat3Transpose (mat3Inv m)).mulVec n

/-- One iteration of the element loop in `create_mesh_for_block`
(`src/block.rs` lines 272-356): mesh the element with the UV-lock rotation
when enabled, then append its indices (shifted), transformed normals, UVs,
and positions rotated by the element rotation about its origin followed by
the model rotation about (8, 8, 8). -/
def appendElement (atlas : TextureAtlasQ) (model : ProcessedModelQ) (st : MeshData × Bool)
    (e : ElementQ) : MeshData × Bool :=
  let mrotDeg : ℤ × ℤ := (-model.model_rot.1, -model.model_rot.2)
  let uvRot := if model.uv_lock then mrotDeg else (0, 0)
  let em := element_mesh e atlas model.textures uvRot
  let mat := mat3Mul (modelRotMat model.model_rot) (elemRotMat e.rotation)
  let base := st.1.positions.length
  (⟨st.1.positions ++ em.1.positions.map (fun p =>
       rot_vert_with_orig (modelRotFun model.model_rot) ⟨8, 8, 8⟩
         (rot_vert_with_orig (elemRotFun e.rotation) e.rotation.origin p)),
    st.1.normals ++ em.1.normals.map (xformNormal mat),
    st.1.uvs ++ em.1.uvs,
    st.1.indices ++ em.1.indices.map (· + base)⟩, st.2 || em.2)

/-- `create_mesh_for_block` (`src/block.rs`): accumulate every element of
every processed model into one mesh, tracking transparency. -/
def create_mesh_for_block (models : List ProcessedModelQ) (atlas : TextureAtlasQ) :
    MeshData × Bool :=
  models.foldl (fun st m => m.elements.foldl (appendElement atlas m) st) (MeshData.empty, false)

/-! ### The `src/mesh.rs` variant of the mesher.

`src/mesh.rs` stores one `ElementMesh` per element: its `element_mesh`
(lines 87-224) has no UV-lock rotation and additionally returns
`offset = min + (max - min) / 2`, and its `create_mesh_for_block`
(lines 239-349) subtracts that offset from each rotated vertex and retains
it in the `ElementMesh`. -/

/-- `src/mesh.rs` `common_face` (lines 102-135): as `common_face` but with
no UV rotation step. -/
def common_face_v2 (atlas : TextureAtlasQ) (textures : List (String × String))
    (st : MeshData × Bool) (fe : FaceEntry) (face : ElementFaceQ) : MeshData × Bool :=
  match faceTexResolve textures face.texture with
  | none => st
  | some texName =>
    let td := atlas.getTexDetails texName
    let hasT := st.2 || td.has_transparency
    let base := st.1.positions.length
    let verts := fe.corners.map fun c =>
      (c.1, getAtlasUVs td (applyFaceUV face c.2))
    (⟨st.1.positions ++ verts.map Prod.fst,
      st.1.normals ++ List.replicate 4 fe.normal,
      st.1.uvs ++ verts.map Prod.snd,
      st.1.indices ++ [0, 1, 2, 2, 3, 0].map (· + base)⟩, hasT)

def stepFace_v2 (atlas : TextureAtlasQ) (textures : List (String × String))
    (st : MeshData × Bool) (fe : FaceEntry) : MeshData × Bool :=
  match fe.face? with
  | none => st
  | some f => common_face_v2 atlas textures st fe f

def element_mesh_v2 (e : ElementQ) (atlas : TextureAtlasQ)
    (textures : List (String × String)) : MeshData × Bool :=
  (faceTable e).foldl (stepFace_v2 atlas textures) (MeshData.empty, false)

/-- `let offset = min + (max - min) / 2.0;` (`src/mesh.rs` line 210) — the
midpoint of the element's declared, unrotated bounding box. -/
def elementOffset (e : ElementQ) : Vec3Q :=
  e.efrom + Vec3Q.scale (1/2) (e.eto - e.efrom)

structure ProcessedModelV2 where
  model_rot : ℤ × ℤ
  textures : List (String × String)
  elements : List ElementQ
  deriving Repr

/-- `src/mesh.rs` model rotation:
`Quat::from_euler(EulerRot::XYZ, -x°, -y°, 0)`, i.e. the Y rotation acting
first and the X rotation after it. -/
def modelRotFunV2 (mr : ℤ × ℤ) (v : Vec3Q) : Vec3Q :=
  rotXr (rotDeg (-mr.1)) (rotYr (rotDeg (-mr.2)) v)

def modelRotMatV2 (mr : ℤ × ℤ) : Mat3Q :=
  mat3Mul (matXr (rotDeg (-mr.1))) (matYr (rotDeg (-mr.2)))

structure ElementMeshV2 where
  data : MeshData
  has_transparency : Bool
  offset : Vec3Q
  deriving DecidableEq, Repr

/-- One iteration of the element loop of `src/mesh.rs`
`create_mesh_for_block`: vertex positions are rotated by the element
rotation about its origin, then by the model rotation about (8, 8, 8), and
the element's offset is subtracted; the offset itself is retained. -/
def buildElementV2 (atlas : TextureAtlasQ) (m : ProcessedModelV2) (e : ElementQ) :
    ElementMeshV2 :=
  let em := element_mesh_v2 e atlas m.textures
  let off := elementOffset e
  let mat := mat3Mul (modelRotMatV2 m.model_rot) (elemRotMat e.rotation)
  { data :=
      ⟨em.1.positions.map (fun p =>
          rot_vert_with_orig (modelRotFunV2 m.model_rot) ⟨8, 8, 8⟩
            (rot_vert_with_orig (elemRotFun e.rotation) e.rotation.origin p) - off),
       em.1.normals.map (xformNormal mat),
       em.1.uvs,
       em.1.indices⟩,
    has_transparency := em.2,
    offset := off }

/-- `src/mesh.rs` `create_mesh_for_block`: one `ElementMesh` per element,
in model-then-element order. -/
def create_mesh_for_block_v2 (models : List ProcessedModelV2) (atlas : TextureAtlasQ) :
    List ElementMeshV2 :=
  models.foldl (fun acc m => m.elements.foldl (fun acc e => acc ++ [buildElementV2 atlas m e]) acc) []

/-- A concrete faceless 8×8×8 element at the block corner with identity
element rotation. -/
def elemC3 : ElementQ :=
  ⟨⟨0, 0, 0⟩, ⟨8, 8, 8⟩, none, none, none, none, none, none, ⟨⟨0, 0, 0⟩, .y, ⟨1, 0⟩⟩⟩

/-- A concrete `src/mesh.rs` model instance carrying `elemC3` with model
Y-rotation 90 degrees. -/
def modelC3 : ProcessedModelV2 := ⟨(0, 90), [], [elemC3]⟩

/-- A trivial one-tile atlas. -/
def atlasC3 : TextureAtlasQ := ⟨fun _ => ⟨⟨0, 0, 1, 1⟩, false⟩⟩

/-! ### Block-state resolution (`get_block_model` and `decode_props`,
`src/block.rs` lines 16-58; identical copies in `src/main.rs` lines
543-586 and `src/mesh.rs` lines 15-58). -/

/-- Split a character list at every occurrence of `c`
(Rust `str::split`). -/
def splitOnChar (c : Char) : List Char → List (List Char)
  | [] => [[]]
  | a :: rest =>
    let r := splitOnChar c rest
    if a = c then [] :: r
    else
      match r with
      | h :: t => (a :: h) :: t
      | [] => [[a]]

/-- Split a character list at the first occurrence of `c`
(Rust `str::split_once`): `none` when `c` does not occur. -/
def splitOnceChar (c : Char) : List Char → Option (List Char × List Char)
  | [] => none
  | a :: rest =>
    if a = c then some ([], rest)
    else (splitOnceChar c rest).map fun p => (a :: p.1, p.2)

/-- `decode_props`: empty property string gives the empty map; otherwise
each comma-separated piece must contain `=` (the source unwraps, i.e.
panics, on a piece without one — embedded as `none`).  The pairs are
accumulated by prepending, so `lookupA` sees the most recent binding for a
key first, matching `HashMap::insert` overwrite semantics. -/
def decode_props (s : String) : Option (List (String × String)) :=
  if s.data.isEmpty then some []
  else
    ((splitOnChar ',' s.data).mapM (splitOnceChar '=')).map fun l =>
      l.foldl (fun acc kv => (String.mk kv.1, String.mk kv.2) :: acc) []

/-- `trim_end_matches(']')`. -/
def trimEndBrackets (l : List Char) : List Char :=
  (l.reverse.dropWhile (· = ']')).reverse

/-- The name/property split of `get_block_model`:
`block.split_once('[')` with the trailing `]` trimmed from the property
part; a block string without `[` has an empty property part. -/
def parseBlockKey (block : String) : String × String :=
  match splitOnceChar '[' block.data with
  | some (name, props) => (String.mk name, String.mk (trimEndBrackets props))
  | none => (block, "")

structure ModelPropertiesQ where
  model : String
  x : ℤ
  y : ℤ
  uv_lock : Bool
  deriving DecidableEq, Repr

instance : Inhabited ModelPropertiesQ := ⟨⟨"", 0, 0, false⟩⟩

/-- One multipart case: a property predicate and the declared candidate
model list. -/
structure MultipartCaseQ where
  whenProps : List (String × List String)
  models : List ModelPropertiesQ
  deriving Repr

/-- Models `Case::applies` of the external `minecraft-assets` crate, per
the spec: satisfied iff every constrained property's actual value is among
that property's accepted alternatives; unconstrained properties pass
automatically (a constraint on a property the block state lacks fails). -/
def appliesCase (props : List (String × String)) (c : MultipartCaseQ) : Bool :=
  c.whenProps.all fun kv =>
    match lookupA props kv.1 with
    | some v => kv.2.contains v
    | none => false

/-- Pushing `case.apply.models()[0]` for every case of the (already
filtered) list: indexing an empty candidate list panics in the source,
embedded as `none`. -/
def firstModels : List MultipartCaseQ → Option (List ModelPropertiesQ)
  | [] => some []
  | c :: rest =>
    match c.models.head? with
    | some m => (firstModels rest).map (m :: ·)
    | none => none

/-- The case loop of `get_block_model` (`src/block.rs` lines 48-58): walk
the declared cases in order and push the first candidate
(`case.apply.models()[0]`) of every case that applies.  The blockstate
lookup itself is the external collaborator, so the declared case list is a
parameter. -/
def get_block_model (cases : List MultipartCaseQ) (block : String) :
    Option (List ModelPropertiesQ) :=
  (decode_props (parseBlockKey block).2).bind fun props =>
    firstModels (cases.filter (appliesCase props))

/-! ### Parent-chain merging (`process_model`, `src/block.rs` lines
403-430; identical loops in `src/main.rs` lines 613-639 and `src/mesh.rs`
lines 379-405). -/

/-- A raw model definition as loaded: optional texture-variable table and
optional element list. -/
structure RawModelQ where
  textures : Option (List (String × String))
  elements : Option (List ElementQ)
  deriving Repr

/-- Models `Textures::merge` of the external `minecraft-assets` crate:
`other` is merged into `self` with `self`'s binding kept when a key occurs
in both (hash-map `entry(..).or_insert(..)` semantics, per the crate's
documentation). -/
def mergeTextures (self other : List (String × String)) : List (String × String) :=
  self ++ other.filter fun kv => (lookupA self kv.1).isNone

/-- One iteration of the merge loop of `process_model`:
`model_textures.merge(textures); textures = model_textures` followed by
`elements.append(&mut model_elements)`. -/
def mergeStep (st : List (String × String) × List ElementQ) (m : RawModelQ) :
    List (String × String) × List ElementQ :=
  (match m.textures with
   | some mt => mergeTextures mt st.1
   | none => st.1,
   match m.elements with
   | some me => st.2 ++ me
   | none => st.2)

/-- The merge loop of `process_model`: `load_block_model_recursive` returns
the chain with the requested model first and the root-most ancestor last,
and the loop iterates it reversed (`models.into_iter().rev()`). -/
def mergeChain (chain : List RawModelQ) : List (String × String) × List ElementQ :=
  chain.reverse.foldl mergeStep ([], [])

/-- Derived-first search through the chain (requested model first): the
texture value the claim predicts for a key — the binding of the most
derived model that defines it. -/
def chainLookup (chain : List RawModelQ) (k : String) : Option String :=
  match chain with
  | [] => none
  | m :: rest =>
    match m.textures with
    | some t =>
      match lookupA t k with
      | some v => some v
      | none => chainLookup rest k
    | none => chainLookup rest k

/-! ### Derived, spec-side notions used to state the claims. -/

/-- Whether a face branch emits geometry: the face is declared and its
texture resolves. -/
def faceEmits (textures : List (String × String)) (fe : FaceEntry) : Bool :=
  match fe.face? with
  | none => false
  | some f => (faceTexResolve textures f.texture).isSome

/-- Number of faces of an element that emit geometry. -/
def emittedFacesElem (textures : List (String × String)) (e : ElementQ) : Nat :=
  ((faceTable e).filter (faceEmits textures)).length

/-- Total number of emitted faces over a processed-model list. -/
def totalEmitted (models : List ProcessedModelQ) : Nat :=
  (models.map fun m => (m.elements.map (emittedFacesElem m.textures)).sum).sum

/-- The index pattern the claims require: 6 indices per face, quad-fan
`base, base+1, base+2, base+2, base+3, base` with `base = 4 * face`. -/
def quadIndices (F : Nat) : List Nat :=
  (List.range F).flatMap fun k => [4*k, 4*k+1, 4*k+2, 4*k+2, 4*k+3, 4*k]

/-- The mesh-validity invariant of the claims: equal attribute lengths of
4 per emitted face and the quad index pattern over those faces. -/
def MeshWF (m : MeshData) (F : Nat) : Prop :=
  m.positions.length = 4 * F ∧ m.normals.length = 4 * F ∧
  m.uvs.length = 4 * F ∧ m.indices = quadIndices F

/-- The pre-atlas UV stream of an element: for every emitted face, its four
default UV corners remapped through the face's UV rectangle, paired with
the face's `use_x_rot` flag and resolved texture name — the UV data before
any UV-lock rotation and before atlas mapping. -/
def facePreVerts (textures : List (String × String)) (fe : FaceEntry) :
    List (Vec2Q × Bool × String) :=
  match fe.face? with
  | none => []
  | some f =>
    match faceTexResolve textures f.texture with
    | none => []
    | some t => fe.corners.map fun c => (applyFaceUV f c.2, fe.useXRot, t)

def elementPreUVs (e : ElementQ) (textures : List (String × String)) :
    List (Vec2Q × Bool × String) :=
  (faceTable e).flatMap (facePreVerts textures)

/-- Likewise, the position stream of an element: the four corners of every
emitted face. -/
def facePrePositions (textures : List (String × String)) (fe : FaceEntry) : List Vec3Q :=
  match fe.face? with
  | none => []
  | some f =>
    match faceTexResolve textures f.texture with
    | none => []
    | some _ => fe.corners.map Prod.fst

def elementPrePositions (e : ElementQ) (textures : List (String × String)) : List Vec3Q :=
  (faceTable e).flatMap (facePrePositions textures)

/-- Drop a declared face when its texture fails to resolve. -/
def dropUnresolved (textures : List (String × String)) :
    Option ElementFaceQ → Option ElementFaceQ
  | none => none
  | some f => if (faceTexResolve textures f.texture).isSome then some f else none

/-- The element with every unresolvable face removed. -/
def filterElement (textures : List (String × String)) (e : ElementQ) : ElementQ :=
  { e with
    up := dropUnresolved textures e.up
    down := dropUnresolved textures e.down
    east := dropUnresolved textures e.east
    west := dropUnresolved textures e.west
    south := dropUnresolved textures e.south
    north := dropUnresolved textures e.north }

/-- A processed-model list with every unresolvable face removed. -/
def filterModels (models : List ProcessedModelQ) : List ProcessedModelQ :=
  models.map fun m => { m with elements := m.elements.map (filterElement m.textures) }

/-- The UV rotation `create_mesh_for_block` hands to `element_mesh`:
the negated model rotation when `uv_lock` is set, zero otherwise. -/
def uvRotOf (m : ProcessedModelQ) : ℤ × ℤ :=
  if m.uv_lock then (-m.model_rot.1, -m.model_rot.2) else (0, 0)

/-- The contribution of one element to the block mesh: its element mesh
with rotated positions and transformed normals (indices relative to the
element, base 0). -/
def elemBlockMesh (atlas : TextureAtlasQ) (m : ProcessedModelQ) (e : ElementQ) : MeshData :=
  let em := element_mesh e atlas m.textures (uvRotOf m)
  ⟨em.1.positions.map (fun p =>
      rot_vert_with_orig (modelRotFun m.model_rot) ⟨8, 8, 8⟩
        (rot_vert_with_orig (elemRotFun e.rotation) e.rotation.origin p)),
   em.1.normals.map (xformNormal (mat3Mul (modelRotMat m.model_rot) (elemRotMat e.rotation))),
   em.1.uvs,
   em.1.indices⟩

def elemBlockBool (atlas : TextureAtlasQ) (m : ProcessedModelQ) (e : ElementQ) : Bool :=
  (element_mesh e atlas m.textures (uvRotOf m)).2

/-- Concatenation of a list of element-relative meshes. -/
def mconcat (l : List MeshData) : MeshData := l.foldl MeshData.append MeshData.empty

/-- The normal stream a face contributes. -/
def faceNormals (textures : List (String × String)) (fe : FaceEntry) : List Vec3Q :=
  if faceEmits textures fe then List.replicate 4 fe.normal else []

/-- Whether a face samples a transparency-flagged atlas tile. -/
def faceTransp (atlas : TextureAtlasQ) (textures : List (String × String))
    (fe : FaceEntry) : Bool :=
  match fe.face? with
  | none => false
  | some f =>
    match faceTexResolve textures f.texture with
    | none => false
    | some t => (atlas.getTexDetails t).has_transparency

/-- The UV transform applied to one pre-atlas UV record: rotate about
(0.5, 0.5) by the X or Y UV-lock component as the face's flag picks, then
map into the atlas tile. -/
def uvXform (atlas : TextureAtlasQ) (uvRot : ℤ × ℤ) (v : Vec2Q × Bool × String) : Vec2Q :=
  getAtlasUVs (atlas.getTexDetails v.2.2)
    (rotate_uv_with_orig (if v.2.1 then uvRot.1 else uvRot.2) ⟨1/2, 1/2⟩ v.1)

/-- The mesh one face branch contributes on its own (vertex base 0). -/
def faceMesh (atlas : TextureAtlasQ) (textures : List (String × String)) (uvRot : ℤ × ℤ)
    (fe : FaceEntry) : MeshData × Bool :=
  stepFace atlas textures uvRot (MeshData.empty, false) fe

end McRenderer

namespace McRenderer

/-! ## Theorems -/

/-! ### C1: texture indirection resolution -/

/-- Helper: on the self-referential table the chase loop is stuck on the
same reference at every step. -/
lemma chase_cycTex_outOfFuel : ∀ fuel, chase cycTex fuel "#a" = .outOfFuel := by
  intro fuel
  induction fuel with
  | zero => decide
  | succ n ih =>
    have hstep : chase cycTex (n + 1) "#a" = chase cycTex n "#a" := rfl
    rw [hstep, ih]

/-- Helper: a successfully chased value never carries a `#` prefix. -/
lemma chase_resolved_literal (tex : List (String × String)) :
    ∀ fuel v s, chase tex fuel v = .resolved s → s.data.head? ≠ some '#' := by
  intro fuel
  induction fuel with
  | zero =>
    intro v s h
    unfold chase at h
    split at h
    · exact absurd h (by simp)
    · next hne =>
      cases h
      intro hhead
      rcases hd : v.data with _ | ⟨c, rest⟩
      · rw [hd] at hhead; simp at hhead
      · rw [hd] at hhead
        simp at hhead
        exact hne rest (by rw [hd, hhead])
  | succ n ih =>
    intro v s h
    unfold chase at h
    split at h
    · split at h
      · exact ih _ _ h
      · exact absurd h (by simp)
    · next hne =>
      cases h
      intro hhead
      rcases hd : v.data with _ | ⟨c, rest⟩
      · rw [hd] at hhead; simp at hhead
      · rw [hd] at hhead
        simp at hhead
        exact hne rest (by rw [hd, hhead])

/-- C1, counterexample: on the self-referential table `a → #a` the
resolution loop of `resolve_textures_completely` never terminates — at
every amount of fuel it is still mid-chase, so it neither resolves nor
fails with any error: no fatal CycleError is ever produced. -/
theorem C1_counterexample : chaseDiverges cycTex "#a" :=
  fun fuel => chase_cycTex_outOfFuel fuel

/-- C1, amended: texture-indirection resolution follows `#`-references
iteratively until a literal (non-`#`) path remains; the chain
`#a → #b → "block/stone"` resolves `a` to `"block/stone"`; a reference to
an undefined variable fails fatally (the table-index panic, a NotFound);
but a self-referential or looping chain does not fail with a CycleError —
the resolution loop never terminates on it. -/
theorem C1_texture_indirection :
    resolveVar chainTex 2 "a" = .resolved "block/stone"
    ∧ (∀ tex fuel v s, chase tex fuel v = .resolved s → s.data.head? ≠ some '#')
    ∧ (∀ fuel, resolveVar danglingTex (fuel + 1) "a" = .panicked)
    ∧ (∀ fuel, resolveVar cycTex fuel "a" = .outOfFuel) := by
  refine ⟨by decide, fun tex => chase_resolved_literal tex, fun fuel => rfl, fun fuel => ?_⟩
  have : resolveVar cycTex fuel "a" = chase cycTex fuel "#a" := rfl
  rw [this, chase_cycTex_outOfFuel]

/-- C1, witness: the amended theorem applied at the concrete chain — the
resolved value `"block/stone"` is literal. -/
theorem C1_witness : ("block/stone").data.head? ≠ some '#' :=
  C1_texture_indirection.2.1 chainTex 2 "#b" "block/stone" (by decide)

/-! ### C2: atlas tile transparency classification -/

/-- Helper: `any` over a pixel range is an existence statement. -/
lemma any_range'_iff (p : Nat → Bool) (s n : Nat) :
    (List.range' s n).any p = true ↔ ∃ x, s ≤ x ∧ x < s + n ∧ p x = true := by
  simp only [List.any_eq_true, List.mem_range'_1]
  constructor
  · rintro ⟨x, ⟨hx1, hx2⟩, hp⟩
    exact ⟨x, hx1, hx2, hp⟩
  · rintro ⟨x, hx1, hx2, hp⟩
    exact ⟨x, ⟨hx1, hx2⟩, hp⟩

/-- C2, counterexample: a 1×1 tile whose only pixel has alpha 0.  The
`src/main.rs` atlas builder classifies it transparent although it contains
only alpha-0 pixels (the `src/resources/textures.rs` builder classifies it
false, as the claim requires for every tile). -/
theorem C2_counterexample :
    tileTransparencyMain (fun _ _ => 0) 0 1 0 1 = true
    ∧ tileTransparencyTex (fun _ _ => 0) 0 1 0 1 = false := by decide

/-- C2, amended: the `src/resources/textures.rs` builder flags a tile iff
some contained pixel's alpha is neither 0 nor 255, exactly as the claim
states; but the `src/main.rs` builder flags a tile iff some contained
pixel's alpha differs from 255 alone, so a tile containing only alpha-255
and alpha-0 pixels is classified true there, not false. -/
theorem C2_transparency (alpha : Nat → Nat → Nat) (x0 x1 y0 y1 : Nat) :
    (tileTransparencyTex alpha x0 x1 y0 y1 = true ↔
      ∃ x y, x0 ≤ x ∧ x < x1 ∧ y0 ≤ y ∧ y < y1 ∧ alpha x y ≠ 255 ∧ alpha x y ≠ 0)
    ∧ (tileTransparencyMain alpha x0 x1 y0 y1 = true ↔
      ∃ x y, x0 ≤ x ∧ x < x1 ∧ y0 ≤ y ∧ y < y1 ∧ alpha x y ≠ 255) := by
  constructor
  · rw [tileTransparencyTex, any_range'_iff]
    constructor
    · rintro ⟨x, hx1, hx2, hp⟩
      rw [any_range'_iff] at hp
      rcases hp with ⟨y, hy1, hy2, hp⟩
      simp only [Bool.and_eq_true, decide_eq_true_eq] at hp
      exact ⟨x, y, hx1, by omega, hy1, by omega, hp.1, hp.2⟩
    · rintro ⟨x, y, hx1, hx2, hy1, hy2, h255, h0⟩
      refine ⟨x, hx1, by omega, ?_⟩
      rw [any_range'_iff]
      refine ⟨y, hy1, by omega, ?_⟩
      simp only [Bool.and_eq_true, decide_eq_true_eq]
      exact ⟨h255, h0⟩
  · rw [tileTransparencyMain, any_range'_iff]
    constructor
    · rintro ⟨x, hx1, hx2, hp⟩
      rw [any_range'_iff] at hp
      rcases hp with ⟨y, hy1, hy2, hp⟩
      simp only [decide_eq_true_eq] at hp
      exact ⟨x, y, hx1, by omega, hy1, by omega, hp⟩
    · rintro ⟨x, y, hx1, hx2, hy1, hy2, h255⟩
      refine ⟨x, hx1, by omega, ?_⟩
      rw [any_range'_iff]
      refine ⟨y, hy1, by omega, ?_⟩
      simp only [decide_eq_true_eq]
      exact h255

/-- C2, witness: the amended theorem applied to a concrete 1×1 tile with a
partial-alpha pixel. -/
theorem C2_witness :
    ∃ x y, 0 ≤ x ∧ x < 1 ∧ 0 ≤ y ∧ y < 1 ∧
      (fun _ _ => 7 : Nat → Nat → Nat) x y ≠ 255 ∧
      (fun _ _ => 7 : Nat → Nat → Nat) x y ≠ 0 :=
  (C2_transparency (fun _ _ => 7) 0 1 0 1).1.mp (by decide)

/-! ### C6: the block palette -/

/-- Helper: the default palette is well-formed. -/
lemma paletteDefault_WF : PaletteWF paletteDefault := by
  refine ⟨fun s => ?_, fun s i h => ?_, by simp [paletteDefault]⟩
  · by_cases h : s = "minecraft:air" <;>
      simp [paletteDefault, lookupA, h, eq_comm]
  · by_cases hs : s = "minecraft:air"
    · subst hs
      simp [paletteDefault, lookupA] at h
      simp [paletteDefault, ← h]
    · simp [paletteDefault, lookupA, Ne.symm hs] at h

/-- Helper: `get_or_add` preserves palette well-formedness. -/
lemma getOrAdd_WF {p : BlockPalette} (hp : PaletteWF p) (name : String) :
    PaletteWF (getOrAdd p name).2 := by
  obtain ⟨hnone, hsome, hnodup⟩ := hp
  unfold getOrAdd
  rcases hl : lookupA p.map name with _ | idx
  · simp only [hl]
    have hname : name ∉ p.blocks := (hnone name).mp hl
    refine ⟨fun s => ?_, fun s i h => ?_, ?_⟩
    · show lookupA ((name, p.blocks.length) :: p.map) s = none ↔ s ∉ p.blocks ++ [name]
      by_cases hs : s = name
      · subst hs
        simp [lookupA]
      · have hcond : ¬ (name = s) := fun h' => hs h'.symm
        simp only [lookupA, if_neg hcond]
        rw [hnone s]
        simp [hs]
    · replace h : lookupA ((name, p.blocks.length) :: p.map) s = some i := h
      show (p.blocks ++ [name]).get? i = some s
      by_cases hs : name = s
      · subst hs
        have h2 : p.blocks.length = i := by simpa [lookupA] using h
        simp [← h2, List.get?_concat_length]
      · simp only [lookupA, if_neg hs] at h
        have h2 := hsome s i h
        have hlt : i < p.blocks.length := (List.get?_eq_some.mp h2).1
        rw [List.get?_append hlt]
        exact h2
    · show (p.blocks ++ [name]).Nodup
      rw [← List.concat_eq_append]
      exact hnodup.concat hname
  · simpa only [hl] using ⟨hnone, hsome, hnodup⟩

/-- Helper: every palette reached from the default by a call sequence is
well-formed. -/
lemma applySeq_WF (seq : List String) : PaletteWF (applySeq seq) := by
  suffices h : ∀ p, PaletteWF p → PaletteWF (seq.foldl (fun p s => (getOrAdd p s).2) p) by
    exact h paletteDefault paletteDefault_WF
  induction seq with
  | nil => intro p hp; exact hp
  | cons a rest ih =>
    intro p hp
    exact ih _ (getOrAdd_WF hp a)

/-- Helper: a known name returns its stored index without change. -/
lemma getOrAdd_mem {p : BlockPalette} (hp : PaletteWF p) {name : String}
    (hmem : name ∈ p.blocks) :
    (getOrAdd p name).2 = p := by
  obtain ⟨hnone, _, _⟩ := hp
  unfold getOrAdd
  rcases hl : lookupA p.map name with _ | idx
  · exact absurd ((hnone name).mp hl) (by simp [hmem])
  · rfl

/-- Helper: the block list evolves by first-seen insertion. -/
lemma getOrAdd_blocks {p : BlockPalette} (hp : PaletteWF p) (name : String) :
    (getOrAdd p name).2.blocks = insertNew p.blocks name := by
  obtain ⟨hnone, hsome, _⟩ := hp
  unfold getOrAdd insertNew
  rcases hl : lookupA p.map name with _ | idx
  · have : name ∉ p.blocks := (hnone name).mp hl
    simp [hl, this]
  · have hmem : name ∈ p.blocks := by
      have := hsome name idx hl
      exact List.get?_mem this
    simp [hl, hmem]

/-- Helper: block-list characterization of a whole call sequence. -/
lemma applySeq_blocks (seq : List String) :
    (applySeq seq).blocks = seq.foldl insertNew ["minecraft:air"] := by
  suffices h : ∀ p, PaletteWF p →
      (seq.foldl (fun p s => (getOrAdd p s).2) p).blocks = seq.foldl insertNew p.blocks by
    exact h paletteDefault paletteDefault_WF
  induction seq with
  | nil => intro p _; rfl
  | cons a rest ih =>
    intro p hp
    have h1 := ih _ (getOrAdd_WF hp a)
    simp only [List.foldl_cons, h1, getOrAdd_blocks hp a]

/-- C6: the palette maps `"minecraft:air"` to index 0 out of the box; a
second `get_or_add` with the same string returns the index the first call
produced and leaves the palette unchanged; a string not yet in the palette
receives the next unused index (the current length) and is appended; the
first non-air string receives index 1; and across any call sequence the
block list grows by first-seen insertion and stays duplicate-free, so
distinct strings hold distinct, strictly increasing, never-reused indices
in first-seen order. -/
theorem C6_palette :
    (getOrAdd paletteDefault "minecraft:air") = (0, paletteDefault)
    ∧ (∀ seq s, (getOrAdd (getOrAdd (applySeq seq) s).2 s) =
        ((getOrAdd (applySeq seq) s).1, (getOrAdd (applySeq seq) s).2))
    ∧ (∀ seq s, s ∉ (applySeq seq).blocks →
        (getOrAdd (applySeq seq) s).1 = (applySeq seq).blocks.length
        ∧ (getOrAdd (applySeq seq) s).2.blocks = (applySeq seq).blocks ++ [s])
    ∧ (∀ s, s ≠ "minecraft:air" → (getOrAdd paletteDefault s).1 = 1)
    ∧ (∀ seq, (applySeq seq).blocks = seq.foldl insertNew ["minecraft:air"]
        ∧ (applySeq seq).blocks.Nodup) := by
  refine ⟨by decide, fun seq s => ?_, fun seq s hnot => ?_, fun s hs => ?_, fun seq => ?_⟩
  · unfold getOrAdd
    rcases hl : lookupA (applySeq seq).map s with _ | idx
    · simp [hl, lookupA]
    · simp [hl]
  · obtain ⟨hnone, hsome, hnodup⟩ := applySeq_WF seq
    have hl : lookupA (applySeq seq).map s = none := (hnone s).mpr hnot
    unfold getOrAdd
    simp [hl]
  · have h1 : lookupA [("minecraft:air", 0)] s = none := by
      simp [lookupA, Ne.symm hs]
    unfold getOrAdd paletteDefault
    simp [h1]
  · refine ⟨applySeq_blocks seq, ?_⟩
    rw [applySeq_blocks seq]
    have base : (["minecraft:air"] : List String).Nodup := by simp
    clear base
    suffices h : ∀ l : List String, l.Nodup → (seq.foldl insertNew l).Nodup by
      exact h _ (by simp)
    induction seq with
    | nil => intro l hl; exact hl
    | cons a rest ih =>
      intro l hl
      refine ih _ ?_
      unfold insertNew
      by_cases hm : a ∈ l
      · simpa [hm] using hl
      · simp only [hm, if_neg]
        rw [← List.concat_eq_append]
        exact hl.concat hm

/-- C6, witness: the theorem applied at concrete inputs — `"stone"` is new
after the empty sequence and receives index 1. -/
theorem C6_witness :
    (getOrAdd (applySeq []) "stone").1 = (applySeq []).blocks.length
    ∧ (getOrAdd paletteDefault "stone").1 = 1 :=
  ⟨(C6_palette.2.2.1 [] "stone" (by decide)).1, C6_palette.2.2.2.1 "stone" (by decide)⟩

/-! ### C7: the redstone-wire tint curve -/

/-- The tint formula as the spec states it. -/
def specTint (power : ℚ) : ColorQ :=
  let f := power / 15
  ⟨f * (6/10) + (if f > 0 then (4:ℚ)/10 else (3:ℚ)/10),
   clampQ (f * f * (7/10) - 5/10) 0 1,
   clampQ (f * f * (6/10) - 7/10) 0 1⟩

/-- Helper: evaluating the power parser on a parsable string. -/
lemma parsePowerQ_eq {s : String} {n : Int} (h : parseIntChars s.data = some n) :
    parsePowerQ s = (n : ℚ) := by
  simp [parsePowerQ, h]

/-- Helper: evaluating the power parser on an unparsable string. -/
lemma parsePowerQ_none {s : String} (h : parseIntChars s.data = none) :
    parsePowerQ s = 0 := by
  simp [parsePowerQ, h]

/-- C7: for `minecraft:redstone_wire` with tint index 0 the tint is the
spec's curve of the parsed `power` property (0 when missing or
unparsable); `power=0` gives rgb (0.3, 0, 0) and `power=15` gives
rgb (1, 0.2, 0), the blue term clamped up to 0. -/
theorem C7_tint :
    (∀ props (p : ℚ),
      ((lookupA props "power").map parsePowerQ).getD 0 = p →
      get_tint_for_block "minecraft:redstone_wire" props 0 = specTint p)
    ∧ get_tint_for_block "minecraft:redstone_wire" [("power", "0")] 0 = ⟨3/10, 0, 0⟩
    ∧ get_tint_for_block "minecraft:redstone_wire" [("power", "15")] 0 = ⟨1, 1/5, 0⟩
    ∧ get_tint_for_block "minecraft:redstone_wire" [] 0 = ⟨3/10, 0, 0⟩
    ∧ get_tint_for_block "minecraft:redstone_wire" [("power", "abc")] 0 = ⟨3/10, 0, 0⟩ := by
  have hformula : ∀ props (p : ℚ),
      ((lookupA props "power").map parsePowerQ).getD 0 = p →
      get_tint_for_block "minecraft:redstone_wire" props 0 = specTint p := by
    intro props p hp
    unfold get_tint_for_block specTint
    rw [if_pos ⟨rfl, rfl⟩]
    rcases hl : lookupA props "power" with _ | s
    · rw [hl] at hp
      simp only [Option.map_none', Option.getD_none] at hp
      subst hp
      rfl
    · rw [hl] at hp
      simp only [Option.map_some', Option.getD_some] at hp
      subst hp
      rfl
  have hspec0 : specTint 0 = ⟨3/10, 0, 0⟩ := by
    norm_num [specTint, clampQ, min_def, max_def]
  refine ⟨hformula, ?_, ?_, ?_, ?_⟩
  · rw [hformula [("power", "0")] 0
      (by simp [lookupA, parsePowerQ_eq (show parseIntChars "0".data = some 0 by decide)]),
      hspec0]
  · rw [hformula [("power", "15")] 15
      (by simp [lookupA, parsePowerQ_eq (show parseIntChars "15".data = some 15 by decide)])]
    norm_num [specTint, clampQ, min_def, max_def]
  · rw [hformula [] 0 (by simp [lookupA]), hspec0]
  · rw [hformula [("power", "abc")] 0
      (by simp [lookupA, parsePowerQ_none (show parseIntChars "abc".data = none by decide)]),
      hspec0]

/-- C7, witness: the formula component of the theorem applied at a
concrete property map with no `power` binding. -/
theorem C7_witness :
    get_tint_for_block "minecraft:redstone_wire" [("other", "1")] 0 = specTint 0 :=
  C7_tint.1 [("other", "1")] 0 (by simp [lookupA])

/-! ### Mesh decomposition helpers -/

@[simp] lemma MeshData.append_empty (a : MeshData) : a.append MeshData.empty = a := by
  simp [MeshData.append, MeshData.empty]

@[simp] lemma MeshData.empty_append (b : MeshData) : MeshData.empty.append b = b := by
  cases b
  simp [MeshData.append, MeshData.empty]

lemma MeshData.append_assoc (a b c : MeshData) :
    (a.append b).append c = a.append (b.append c) := by
  simp only [MeshData.append, MeshData.mk.injEq, List.append_assoc, List.map_append,
    List.map_map, List.length_append, true_and]
  have hmap : (c.indices.map fun x => x + (a.positions.length + b.positions.length))
      = c.indices.map ((fun x => x + a.positions.length) ∘ fun x => x + b.positions.length) :=
    List.map_congr_left fun x _ => by simp only [Function.comp_apply]; omega
  rw [hmap]

/-- Folding any step of append shape from an arbitrary start state equals
the start state extended by the fold from the empty state. -/
lemma foldl_mesh_step {α : Type} (step : MeshData × Bool → α → MeshData × Bool)
    (h : ∀ st x, step st x = (st.1.append (step (MeshData.empty, false) x).1,
                              st.2 || (step (MeshData.empty, false) x).2)) :
    ∀ (l : List α) (st : MeshData × Bool),
      l.foldl step st = (st.1.append (l.foldl step (MeshData.empty, false)).1,
                         st.2 || (l.foldl step (MeshData.empty, false)).2) := by
  intro l
  induction l with
  | nil => intro st; simp
  | cons x xs ih =>
    intro st
    show xs.foldl step (step st x) = _
    rw [ih (step st x), h st x]
    have h2 : (x :: xs).foldl step (MeshData.empty, false) =
        xs.foldl step (step (MeshData.empty, false) x) := rfl
    rw [h2, ih (step (MeshData.empty, false) x), h (MeshData.empty, false) x]
    simp [MeshData.append_assoc, Bool.or_assoc]

lemma stepFace_eq_append (atlas : TextureAtlasQ) (textures : List (String × String))
    (uvRot : ℤ × ℤ) (st : MeshData × Bool) (fe : FaceEntry) :
    stepFace atlas textures uvRot st fe =
      (st.1.append (faceMesh atlas textures uvRot fe).1,
       st.2 || (faceMesh atlas textures uvRot fe).2) := by
  unfold faceMesh stepFace
  cases hf : fe.face? with
  | none => simp
  | some f =>
    unfold common_face
    cases hr : faceTexResolve textures f.texture with
    | none => simp [hr]
    | some t =>
      simp [hr, MeshData.append, MeshData.empty, List.map_map, Function.comp]

/-- The six face branches of an element all carry 4 corners. -/
lemma faceTable_corners (e : ElementQ) : ∀ fe ∈ faceTable e, fe.corners.length = 4 := by
  intro fe hfe
  simp only [faceTable, List.mem_cons, List.not_mem_nil, or_false] at hfe
  rcases hfe with rfl | rfl | rfl | rfl | rfl | rfl <;> rfl

lemma faceMesh_positions (atlas : TextureAtlasQ) (textures : List (String × String))
    (uvRot : ℤ × ℤ) (fe : FaceEntry) :
    (faceMesh atlas textures uvRot fe).1.positions = facePrePositions textures fe := by
  unfold faceMesh stepFace facePrePositions
  cases hf : fe.face? with
  | none => rfl
  | some f =>
    unfold common_face
    cases hr : faceTexResolve textures f.texture with
    | none => simp [hr, MeshData.empty]
    | some t => simp [hr, MeshData.empty, List.map_map]

lemma faceMesh_normals (atlas : TextureAtlasQ) (textures : List (String × String))
    (uvRot : ℤ × ℤ) (fe : FaceEntry) :
    (faceMesh atlas textures uvRot fe).1.normals = faceNormals textures fe := by
  unfold faceMesh stepFace faceNormals faceEmits
  cases hf : fe.face? with
  | none => rfl
  | some f =>
    unfold common_face
    cases hr : faceTexResolve textures f.texture with
    | none => simp [hr, MeshData.empty]
    | some t => simp [hr, MeshData.empty]

lemma faceMesh_uvs (atlas : TextureAtlasQ) (textures : List (String × String))
    (uvRot : ℤ × ℤ) (fe : FaceEntry) :
    (faceMesh atlas textures uvRot fe).1.uvs =
      (facePreVerts textures fe).map (uvXform atlas uvRot) := by
  unfold faceMesh stepFace facePreVerts
  cases hf : fe.face? with
  | none => rfl
  | some f =>
    unfold common_face
    cases hr : faceTexResolve textures f.texture with
    | none => simp [hr, MeshData.empty]
    | some t => simp [hr, MeshData.empty, List.map_map, uvXform]

lemma faceMesh_indices (atlas : TextureAtlasQ) (textures : List (String × String))
    (uvRot : ℤ × ℤ) (fe : FaceEntry) :
    (faceMesh atlas textures uvRot fe).1.indices =
      quadIndices (if faceEmits textures fe then 1 else 0) := by
  unfold faceMesh stepFace faceEmits
  cases hf : fe.face? with
  | none => rfl
  | some f =>
    unfold common_face
    cases hr : faceTexResolve textures f.texture with
    | none => simp [hr, MeshData.empty, quadIndices]
    | some t => simp [hr, MeshData.empty, quadIndices, List.range_succ]

lemma faceMesh_bool (atlas : TextureAtlasQ) (textures : List (String × String))
    (uvRot : ℤ × ℤ) (fe : FaceEntry) :
    (faceMesh atlas textures uvRot fe).2 = faceTransp atlas textures fe := by
  unfold faceMesh stepFace faceTransp
  cases hf : fe.face? with
  | none => rfl
  | some f =>
    unfold common_face
    cases hr : faceTexResolve textures f.texture with
    | none => simp [hr]
    | some t => simp [hr]

lemma faceMesh_pos_length (atlas : TextureAtlasQ) (textures : List (String × String))
    (uvRot : ℤ × ℤ) {fe : FaceEntry} (h4 : fe.corners.length = 4) :
    (faceMesh atlas textures uvRot fe).1.positions.length =
      4 * (if faceEmits textures fe then 1 else 0) := by
  rw [faceMesh_positions]
  unfold facePrePositions faceEmits
  cases hf : fe.face? with
  | none => rfl
  | some f =>
    cases hr : faceTexResolve textures f.texture with
    | none => simp [hr]
    | some t => simp [hr, h4]

lemma quadIndices_add (a b : Nat) :
    quadIndices (a + b) = quadIndices a ++ (quadIndices b).map (· + 4 * a) := by
  unfold quadIndices
  rw [List.range_add, List.flatMap_append, List.flatMap_map, List.map_flatMap]
  congr 1
  apply List.flatMap_congr
  intro k _
  simp only [List.map_cons, List.map_nil, List.cons.injEq, and_true]
  refine ⟨by ring, by ring, by ring, by ring, by ring, by ring⟩

lemma quadIndices_length (F : Nat) : (quadIndices F).length = 6 * F := by
  induction F with
  | zero => rfl
  | succ n ih =>
    rw [quadIndices_add n 1, List.length_append, List.length_map, ih,
      show (quadIndices 1).length = 6 from rfl]
    ring

lemma quadIndices_lt (F : Nat) : ∀ i ∈ quadIndices F, i < 4 * F := by
  intro i hi
  unfold quadIndices at hi
  rw [List.mem_flatMap] at hi
  obtain ⟨k, hk, hin⟩ := hi
  rw [List.mem_range] at hk
  simp only [List.mem_cons, List.not_mem_nil, or_false] at hin
  rcases hin with rfl | rfl | rfl | rfl | rfl | rfl <;> omega

/-- Full characterization of the face fold: every component of the
accumulated element mesh, as a flat map over the face branches. -/
lemma foldFaces_spec (atlas : TextureAtlasQ) (textures : List (String × String))
    (uvRot : ℤ × ℤ) :
    ∀ fes : List FaceEntry, (∀ fe ∈ fes, fe.corners.length = 4) →
      (fes.foldl (stepFace atlas textures uvRot) (MeshData.empty, false)).1.positions
          = fes.flatMap (facePrePositions textures)
      ∧ (fes.foldl (stepFace atlas textures uvRot) (MeshData.empty, false)).1.normals
          = fes.flatMap (faceNormals textures)
      ∧ (fes.foldl (stepFace atlas textures uvRot) (MeshData.empty, false)).1.uvs
          = (fes.flatMap (facePreVerts textures)).map (uvXform atlas uvRot)
      ∧ (fes.foldl (stepFace atlas textures uvRot) (MeshData.empty, false)).1.indices
          = quadIndices ((fes.filter (faceEmits textures)).length)
      ∧ (fes.foldl (stepFace atlas textures uvRot) (MeshData.empty, false)).2
          = fes.any (faceTransp atlas textures) := by
  intro fes
  induction fes with
  | nil => intro _; exact ⟨rfl, rfl, rfl, rfl, rfl⟩
  | cons fe rest ih =>
    intro h4
    obtain ⟨hp, hn, hu, hi, hb⟩ := ih (fun x hx => h4 x (List.mem_cons_of_mem fe hx))
    have h4fe : fe.corners.length = 4 := h4 fe (List.mem_cons_self fe rest)
    have hstep : (fe :: rest).foldl (stepFace atlas textures uvRot) (MeshData.empty, false)
        = rest.foldl (stepFace atlas textures uvRot) (faceMesh atlas textures uvRot fe) := rfl
    have hpull := foldl_mesh_step (stepFace atlas textures uvRot)
      (fun st x => stepFace_eq_append atlas textures uvRot st x) rest
      (faceMesh atlas textures uvRot fe)
    rw [hstep, hpull]
    have hflen : (faceMesh atlas textures uvRot fe).1.positions.length
        = 4 * (if faceEmits textures fe then 1 else 0) :=
      faceMesh_pos_length atlas textures uvRot h4fe
    have hcnt : ((fe :: rest).filter (faceEmits textures)).length
        = (if faceEmits textures fe then 1 else 0)
          + (rest.filter (faceEmits textures)).length := by
      rw [List.filter_cons]
      split <;> simp [Nat.add_comm]
    refine ⟨?_, ?_, ?_, ?_, ?_⟩
    · simp only [MeshData.append, List.flatMap_cons]
      rw [faceMesh_positions, hp]
    · simp only [MeshData.append, List.flatMap_cons]
      rw [faceMesh_normals, hn]
    · simp only [MeshData.append, List.flatMap_cons, List.map_append]
      rw [faceMesh_uvs, hu]
    · simp only [MeshData.append]
      rw [faceMesh_indices, hi, hflen, hcnt, quadIndices_add]
    · simp only [List.any_cons]
      rw [faceMesh_bool, hb]

/-- Helper: attribute lengths of the face fold, four per emitted face. -/
lemma foldFaces_lengths (textures : List (String × String)) :
    ∀ fes : List FaceEntry, (∀ fe ∈ fes, fe.corners.length = 4) →
      (fes.flatMap (facePrePositions textures)).length
          = 4 * (fes.filter (faceEmits textures)).length
      ∧ (fes.flatMap (faceNormals textures)).length
          = 4 * (fes.filter (faceEmits textures)).length
      ∧ (fes.flatMap (facePreVerts textures)).length
          = 4 * (fes.filter (faceEmits textures)).length := by
  intro fes
  induction fes with
  | nil => intro _; exact ⟨rfl, rfl, rfl⟩
  | cons fe rest ih =>
    intro h4
    obtain ⟨hp, hn, hu⟩ := ih (fun x hx => h4 x (List.mem_cons_of_mem fe hx))
    have h4fe : fe.corners.length = 4 := h4 fe (List.mem_cons_self fe rest)
    have hcase : (facePrePositions textures fe).length
          = (if faceEmits textures fe then 4 else 0)
        ∧ (faceNormals textures fe).length = (if faceEmits textures fe then 4 else 0)
        ∧ (facePreVerts textures fe).length = (if faceEmits textures fe then 4 else 0) := by
      unfold facePrePositions faceNormals facePreVerts faceEmits
      cases hf : fe.face? with
      | none => exact ⟨rfl, rfl, rfl⟩
      | some f =>
        cases hr : faceTexResolve textures f.texture with
        | none => simp [hr]
        | some t => simp [hr, h4fe]
    have hcnt : ((fe :: rest).filter (faceEmits textures)).length
        = (if faceEmits textures fe then 1 else 0)
          + (rest.filter (faceEmits textures)).length := by
      rw [List.filter_cons]
      split <;> simp [Nat.add_comm]
    simp only [List.flatMap_cons, List.length_append, hp, hn, hu, hcase.1, hcase.2.1,
      hcase.2.2, hcnt]
    refine ⟨?_, ?_, ?_⟩ <;> split <;> omega

/-- Components of `element_mesh` (`src/block.rs`). -/
lemma element_mesh_spec (e : ElementQ) (atlas : TextureAtlasQ)
    (textures : List (String × String)) (uvRot : ℤ × ℤ) :
    (element_mesh e atlas textures uvRot).1.positions = elementPrePositions e textures
    ∧ (element_mesh e atlas textures uvRot).1.normals
        = (faceTable e).flatMap (faceNormals textures)
    ∧ (element_mesh e atlas textures uvRot).1.uvs
        = (elementPreUVs e textures).map (uvXform atlas uvRot)
    ∧ (element_mesh e atlas textures uvRot).1.indices
        = quadIndices (emittedFacesElem textures e)
    ∧ (element_mesh e atlas textures uvRot).2 = (faceTable e).any (faceTransp atlas textures) :=
  foldFaces_spec atlas textures uvRot (faceTable e) (faceTable_corners e)

/-- The element mesh satisfies the validity invariant, with exactly the
emitted-face count. -/
lemma element_mesh_WF (e : ElementQ) (atlas : TextureAtlasQ)
    (textures : List (String × String)) (uvRot : ℤ × ℤ) :
    MeshWF (element_mesh e atlas textures uvRot).1 (emittedFacesElem textures e) := by
  obtain ⟨hp, hn, hu, hi, _⟩ := element_mesh_spec e atlas textures uvRot
  obtain ⟨lp, ln, lu⟩ := foldFaces_lengths textures (faceTable e) (faceTable_corners e)
  exact ⟨by rw [hp]; exact lp, by rw [hn]; exact ln,
    by rw [hu, List.length_map]; exact lu, hi⟩

/-! ### Block-level decomposition -/

lemma appendElement_eq (atlas : TextureAtlasQ) (m : ProcessedModelQ) (st : MeshData × Bool)
    (e : ElementQ) :
    appendElement atlas m st e =
      (st.1.append (elemBlockMesh atlas m e), st.2 || elemBlockBool atlas m e) := rfl

lemma foldl_append_from (x : MeshData) :
    ∀ l : List MeshData, l.foldl MeshData.append x = x.append (mconcat l) := by
  intro l
  induction l generalizing x with
  | nil => simp [mconcat]
  | cons a rest ih =>
    show rest.foldl MeshData.append (x.append a) = _
    rw [ih (x.append a)]
    have h2 : mconcat (a :: rest) = (MeshData.empty.append a).append (mconcat rest) := by
      show rest.foldl MeshData.append (MeshData.empty.append a) = _
      rw [ih (MeshData.empty.append a)]
    rw [h2]
    simp [MeshData.append_assoc]

lemma mconcat_cons (a : MeshData) (l : List MeshData) :
    mconcat (a :: l) = a.append (mconcat l) := by
  show l.foldl MeshData.append (MeshData.empty.append a) = _
  rw [foldl_append_from]
  simp

lemma mconcat_append (l1 l2 : List MeshData) :
    mconcat (l1 ++ l2) = (mconcat l1).append (mconcat l2) := by
  induction l1 with
  | nil => simp [mconcat]
  | cons a rest ih =>
    rw [List.cons_append, mconcat_cons, mconcat_cons, ih, MeshData.append_assoc]

lemma mconcat_positions (l : List MeshData) :
    (mconcat l).positions = l.flatMap MeshData.positions := by
  induction l with
  | nil => rfl
  | cons a rest ih => rw [mconcat_cons, List.flatMap_cons]; simp [MeshData.append, ih]

lemma mconcat_normals (l : List MeshData) :
    (mconcat l).normals = l.flatMap MeshData.normals := by
  induction l with
  | nil => rfl
  | cons a rest ih => rw [mconcat_cons, List.flatMap_cons]; simp [MeshData.append, ih]

lemma mconcat_uvs (l : List MeshData) :
    (mconcat l).uvs = l.flatMap MeshData.uvs := by
  induction l with
  | nil => rfl
  | cons a rest ih => rw [mconcat_cons, List.flatMap_cons]; simp [MeshData.append, ih]

/-- Well-formedness is additive under mesh concatenation. -/
lemma MeshWF_append {a b : MeshData} {Fa Fb : Nat} (ha : MeshWF a Fa) (hb : MeshWF b Fb) :
    MeshWF (a.append b) (Fa + Fb) := by
  obtain ⟨hap, han, hau, hai⟩ := ha
  obtain ⟨hbp, hbn, hbu, hbi⟩ := hb
  refine ⟨?_, ?_, ?_, ?_⟩
  · simp [MeshData.append, hap, hbp]; ring
  · simp [MeshData.append, han, hbn]; ring
  · simp [MeshData.append, hau, hbu]; ring
  · simp only [MeshData.append, hai, hbi, hap, quadIndices_add, Nat.mul_comm]

/-- The inner element fold from the empty state. -/
lemma inner_fold_empty (atlas : TextureAtlasQ) (m : ProcessedModelQ) :
    ∀ elems : List ElementQ,
      elems.foldl (appendElement atlas m) (MeshData.empty, false)
        = (mconcat (elems.map (elemBlockMesh atlas m)),
           (elems.map (elemBlockBool atlas m)).any id) := by
  have hshape : ∀ (st : MeshData × Bool) (e : ElementQ),
      appendElement atlas m st e =
        (st.1.append ((appendElement atlas m (MeshData.empty, false) e)).1,
         st.2 || ((appendElement atlas m (MeshData.empty, false) e)).2) := by
    intro st e
    rw [appendElement_eq, appendElement_eq]
    simp
  intro elems
  induction elems with
  | nil => rfl
  | cons e rest ih =>
    have h1 : (e :: rest).foldl (appendElement atlas m) (MeshData.empty, false)
        = rest.foldl (appendElement atlas m) (appendElement atlas m (MeshData.empty, false) e) :=
      rfl
    rw [h1, foldl_mesh_step (appendElement atlas m) hshape rest, ih, appendElement_eq]
    simp only [MeshData.empty_append, Bool.false_or, List.map_cons, mconcat_cons,
      List.any_cons]
    rfl

/-- The block mesher decomposed: one mesh contribution per element of each
model, concatenated in declared order; transparency is their disjunction. -/
lemma create_spec (models : List ProcessedModelQ) (atlas : TextureAtlasQ) :
    create_mesh_for_block models atlas
      = (mconcat (models.flatMap fun m => m.elements.map (elemBlockMesh atlas m)),
         (models.flatMap fun m => m.elements.map (elemBlockBool atlas m)).any id) := by
  have hshape : ∀ (st : MeshData × Bool) (m : ProcessedModelQ),
      m.elements.foldl (appendElement atlas m) st =
        (st.1.append ((m.elements.foldl (appendElement atlas m) (MeshData.empty, false))).1,
         st.2 || ((m.elements.foldl (appendElement atlas m) (MeshData.empty, false))).2) := by
    intro st m
    have h : ∀ (st : MeshData × Bool) (e : ElementQ),
        appendElement atlas m st e =
          (st.1.append ((appendElement atlas m (MeshData.empty, false) e)).1,
           st.2 || ((appendElement atlas m (MeshData.empty, false) e)).2) := by
      intro st e
      rw [appendElement_eq, appendElement_eq]
      simp
    exact foldl_mesh_step (appendElement atlas m) h m.elements st
  unfold create_mesh_for_block
  induction models with
  | nil => rfl
  | cons m rest ih =>
    have h1 : (m :: rest).foldl (fun st mm => mm.elements.foldl (appendElement atlas mm) st)
          (MeshData.empty, false)
        = rest.foldl (fun st mm => mm.elements.foldl (appendElement atlas mm) st)
          (m.elements.foldl (appendElement atlas m) (MeshData.empty, false)) := rfl
    rw [h1, foldl_mesh_step _ (fun st mm => hshape st mm) rest, ih, inner_fold_empty]
    simp only [List.flatMap_cons, mconcat_append, List.any_append]

/-- Each element's block-level contribution is well-formed with its own
emitted-face count. -/
lemma elemBlockMesh_WF (atlas : TextureAtlasQ) (m : ProcessedModelQ) (e : ElementQ) :
    MeshWF (elemBlockMesh atlas m e) (emittedFacesElem m.textures e) := by
  obtain ⟨hp, hn, hu, hi⟩ := element_mesh_WF e atlas m.textures (uvRotOf m)
  exact ⟨by simpa [elemBlockMesh] using hp, by simpa [elemBlockMesh] using hn,
    by simpa [elemBlockMesh] using hu, by simpa [elemBlockMesh] using hi⟩

lemma mconcat_WF {α : Type} (g : α → MeshData) (F : α → Nat) :
    ∀ l : List α, (∀ x ∈ l, MeshWF (g x) (F x)) →
      MeshWF (mconcat (l.map g)) ((l.map F).sum) := by
  intro l
  induction l with
  | nil => intro _; exact ⟨rfl, rfl, rfl, rfl⟩
  | cons x rest ih =>
    intro h
    rw [List.map_cons, mconcat_cons, List.map_cons, List.sum_cons]
    exact MeshWF_append (h x (List.mem_cons_self x rest))
      (ih fun y hy => h y (List.mem_cons_of_mem x hy))

/-- The whole block mesh is well-formed with the total emitted-face count. -/
lemma create_WF (models : List ProcessedModelQ) (atlas : TextureAtlasQ) :
    MeshWF (create_mesh_for_block models atlas).1 (totalEmitted models) := by
  rw [create_spec]
  show MeshWF (mconcat _) _
  induction models with
  | nil => exact ⟨rfl, rfl, rfl, rfl⟩
  | cons m rest ih =>
    rw [List.flatMap_cons, mconcat_append]
    have hm := mconcat_WF (elemBlockMesh atlas m) (emittedFacesElem m.textures)
      m.elements (fun e _ => elemBlockMesh_WF atlas m e)
    have : totalEmitted (m :: rest)
        = (m.elements.map (emittedFacesElem m.textures)).sum + totalEmitted rest := by
      simp [totalEmitted]
    rw [this]
    exact MeshWF_append hm ih

/-! ### C10: internal mesh validity -/

/-- C10: every mesh assembled by `element_mesh` and `create_mesh_for_block`
is internally valid — position, normal and UV attribute arrays have equal
length, exactly 4 entries per emitted face; the index array is exactly the
quad pattern `base, base+1, base+2, base+2, base+3, base` with
`base = 4 * (faces before)`, 6 entries per face; and every index is
strictly below the vertex count. -/
theorem C10_mesh_validity (models : List ProcessedModelQ) (atlas : TextureAtlasQ) :
    MeshWF (create_mesh_for_block models atlas).1 (totalEmitted models)
    ∧ (create_mesh_for_block models atlas).1.indices.length = 6 * totalEmitted models
    ∧ (∀ i ∈ (create_mesh_for_block models atlas).1.indices,
        i < (create_mesh_for_block models atlas).1.positions.length)
    ∧ ∀ (e : ElementQ) (textures : List (String × String)) (uvRot : ℤ × ℤ),
        MeshWF (element_mesh e atlas textures uvRot).1 (emittedFacesElem textures e) := by
  obtain ⟨hp, hn, hu, hi⟩ := create_WF models atlas
  refine ⟨⟨hp, hn, hu, hi⟩, ?_, ?_, fun e textures uvRot => element_mesh_WF e atlas textures uvRot⟩
  · rw [hi, quadIndices_length]
  · intro i hmem
    rw [hi] at hmem
    rw [hp]
    exact quadIndices_lt (totalEmitted models) i hmem

/-- C10, witness: the theorem applied to one concrete model with a single
up face — index 5 of the quad pattern is below the vertex count 4. -/
theorem C10_witness :
    3 < (create_mesh_for_block
          [⟨(0, 0), false, [], [⟨⟨0, 0, 0⟩, ⟨16, 16, 16⟩,
            some ⟨"block/stone", none⟩, none, none, none, none, none,
            ⟨⟨0, 0, 0⟩, .y, ⟨1, 0⟩⟩⟩]⟩]
          ⟨fun _ => ⟨⟨0, 0, 1, 1⟩, false⟩⟩).1.positions.length :=
  (C10_mesh_validity _ _).2.2.1 3 (by decide)

/-! ### C9: per-face texture-resolution failure is local -/

/-- Helper: replacing a face by its filtered form does not change the step. -/
lemma stepFace_dropUnresolved (atlas : TextureAtlasQ) (textures : List (String × String))
    (uvRot : ℤ × ℤ) (st : MeshData × Bool) (f? : Option ElementFaceQ)
    (corners : List (Vec3Q × Vec2Q)) (normal : Vec3Q) (useX : Bool) :
    stepFace atlas textures uvRot st ⟨dropUnresolved textures f?, corners, normal, useX⟩
      = stepFace atlas textures uvRot st ⟨f?, corners, normal, useX⟩ := by
  cases f? with
  | none => rfl
  | some f =>
    show stepFace atlas textures uvRot st
        ⟨if (faceTexResolve textures f.texture).isSome then some f else none,
         corners, normal, useX⟩ = _
    cases hr : faceTexResolve textures f.texture with
    | none =>
      simp only [hr, Option.isSome_none, Bool.false_eq_true, if_false]
      simp [stepFace, common_face, hr]
    | some t => simp only [hr, Option.isSome_some, if_true]

/-- Helper: meshing an element equals meshing it with every unresolvable
face removed. -/
lemma element_mesh_filterElement (e : ElementQ) (atlas : TextureAtlasQ)
    (textures : List (String × String)) (uvRot : ℤ × ℤ) :
    element_mesh (filterElement textures e) atlas textures uvRot
      = element_mesh e atlas textures uvRot := by
  unfold element_mesh faceTable filterElement
  simp only [List.foldl_cons, List.foldl_nil, stepFace_dropUnresolved]

/-- Helper: block contributions are unchanged by face filtering. -/
lemma elemBlockMesh_filter (atlas : TextureAtlasQ) (m : ProcessedModelQ) (e : ElementQ) :
    elemBlockMesh atlas { m with elements := m.elements.map (filterElement m.textures) }
        (filterElement m.textures e)
      = elemBlockMesh atlas m e := by
  unfold elemBlockMesh
  rw [show uvRotOf { m with elements := m.elements.map (filterElement m.textures) }
      = uvRotOf m from rfl]
  rw [show (filterElement m.textures e).rotation = e.rotation from rfl]
  rw [element_mesh_filterElement]

lemma elemBlockBool_filter (atlas : TextureAtlasQ) (m : ProcessedModelQ) (e : ElementQ) :
    elemBlockBool atlas { m with elements := m.elements.map (filterElement m.textures) }
        (filterElement m.textures e)
      = elemBlockBool atlas m e := by
  unfold elemBlockBool
  rw [show uvRotOf { m with elements := m.elements.map (filterElement m.textures) }
      = uvRotOf m from rfl]
  rw [element_mesh_filterElement]

/-- C9: a face whose texture variable fails to resolve contributes nothing —
the accumulator passes through that face branch unchanged, so it adds no
vertices, normals, UVs or indices — and meshing continues: the element mesh
equals the mesh of the element with its unresolvable faces dropped, its
attribute arrays hold exactly 4 entries per face that did resolve, and the
whole block mesh equals the block mesh of the face-filtered models (every
other face and every remaining element is still emitted). -/
theorem C9_skip_unresolved :
    (∀ (atlas : TextureAtlasQ) (textures : List (String × String)) (uvRot : ℤ × ℤ)
       (st : MeshData × Bool) (fe : FaceEntry) (f : ElementFaceQ),
        fe.face? = some f → faceTexResolve textures f.texture = none →
        stepFace atlas textures uvRot st fe = st)
    ∧ (∀ (e : ElementQ) (atlas : TextureAtlasQ) (textures : List (String × String))
         (uvRot : ℤ × ℤ),
        element_mesh (filterElement textures e) atlas textures uvRot
          = element_mesh e atlas textures uvRot
        ∧ (element_mesh e atlas textures uvRot).1.positions.length
            = 4 * emittedFacesElem textures e)
    ∧ ∀ (models : List ProcessedModelQ) (atlas : TextureAtlasQ),
        create_mesh_for_block (filterModels models) atlas
          = create_mesh_for_block models atlas := by
  refine ⟨fun atlas textures uvRot st fe f hf hr => ?_, fun e atlas textures uvRot =>
    ⟨element_mesh_filterElement e atlas textures uvRot,
     (element_mesh_WF e atlas textures uvRot).1⟩, fun models atlas => ?_⟩
  · obtain ⟨f?, corners, normal, useX⟩ := fe
    simp only at hf
    subst hf
    simp [stepFace, common_face, hr]
  · rw [create_spec, create_spec]
    unfold filterModels
    have hmesh : ∀ m : ProcessedModelQ,
        (m.elements.map (filterElement m.textures)).map
            (elemBlockMesh atlas { m with elements := m.elements.map (filterElement m.textures) })
          = m.elements.map (elemBlockMesh atlas m) := by
      intro m
      rw [List.map_map]
      exact List.map_congr_left fun e _ => elemBlockMesh_filter atlas m e
    have hbool : ∀ m : ProcessedModelQ,
        (m.elements.map (filterElement m.textures)).map
            (elemBlockBool atlas { m with elements := m.elements.map (filterElement m.textures) })
          = m.elements.map (elemBlockBool atlas m) := by
      intro m
      rw [List.map_map]
      exact List.map_congr_left fun e _ => elemBlockBool_filter atlas m e
    congr 1
    · congr 1
      rw [List.flatMap_map]
      exact List.flatMap_congr fun m _ => hmesh m
    · congr 1
      rw [List.flatMap_map]
      exact List.flatMap_congr fun m _ => hbool m

/-- C9, witness: the skip component applied to a concrete dangling face —
the accumulator state passes through unchanged. -/
theorem C9_witness :
    stepFace ⟨fun _ => ⟨⟨0, 0, 1, 1⟩, false⟩⟩ [] (0, 0) (MeshData.empty, false)
        ⟨some ⟨"#missing", none⟩, [], ⟨0, 1, 0⟩, false⟩
      = (MeshData.empty, false) :=
  C9_skip_unresolved.1 ⟨fun _ => ⟨⟨0, 0, 1, 1⟩, false⟩⟩ [] (0, 0) (MeshData.empty, false)
    ⟨some ⟨"#missing", none⟩, [], ⟨0, 1, 0⟩, false⟩ ⟨"#missing", none⟩ rfl (by decide)

/-! ### C4: UV-lock -/

@[simp] lemma Vec3Q.add_def (a b : Vec3Q) : a + b = ⟨a.x + b.x, a.y + b.y, a.z + b.z⟩ := rfl

@[simp] lemma Vec3Q.sub_def (a b : Vec3Q) : a - b = ⟨a.x - b.x, a.y - b.y, a.z - b.z⟩ := rfl

/-- Helper: the UV rotation by 0 degrees is the identity. -/
lemma rotate_uv_zero (orig uv : Vec2Q) : rotate_uv_with_orig 0 orig uv = uv := by
  cases uv with
  | mk ux uy =>
    cases orig with
    | mk ox oy =>
      unfold rotate_uv_with_orig rot_vert_with_orig rotYr rotDeg cosQ sinQ
      norm_num

/-- Helper: the UV transform with both lock angles zero is plain atlas
mapping. -/
lemma uvXform_zero (atlas : TextureAtlasQ) (v : Vec2Q × Bool × String) :
    uvXform atlas (0, 0) v = getAtlasUVs (atlas.getTexDetails v.2.2) v.1 := by
  unfold uvXform
  rw [show (if v.2.1 = true then ((0:ℤ), (0:ℤ)).1 else ((0:ℤ), (0:ℤ)).2) = 0 from by
    split <;> rfl]
  rw [rotate_uv_zero]

/-- Helper: positions of an element's block contribution, independent of
the UV rotation. -/
lemma elemBlockMesh_positions (atlas : TextureAtlasQ) (m : ProcessedModelQ) (e : ElementQ) :
    (elemBlockMesh atlas m e).positions
      = (elementPrePositions e m.textures).map fun p =>
          rot_vert_with_orig (modelRotFun m.model_rot) ⟨8, 8, 8⟩
            (rot_vert_with_orig (elemRotFun e.rotation) e.rotation.origin p) := by
  unfold elemBlockMesh
  rw [show (⟨(element_mesh e atlas m.textures (uvRotOf m)).1.positions.map _,
      (element_mesh e atlas m.textures (uvRotOf m)).1.normals.map _,
      (element_mesh e atlas m.textures (uvRotOf m)).1.uvs,
      (element_mesh e atlas m.textures (uvRotOf m)).1.indices⟩ : MeshData).positions
      = (element_mesh e atlas m.textures (uvRotOf m)).1.positions.map _ from rfl]
  rw [(element_mesh_spec e atlas m.textures (uvRotOf m)).1]

/-- C4: with uv-lock the emitted vertex positions (and normals, indices and
transparency) are identical to the uv-lock-off run on the same inputs, while
the UVs are the pre-atlas UVs rotated about (0.5, 0.5) by the X angle on the
`use_x_rot` faces and the Y angle on the others before atlas mapping; with
both angles 0 no rotation is applied.  The faces rotated by the Y component
are exactly the two vertical-normal faces (Up, Down), the X-component faces
the four side faces; `create_mesh_for_block` passes the negated model
rotation exactly when `uv_lock` is set, and the block-level vertex positions
are unchanged by clearing every `uv_lock` flag. -/
theorem C4_uv_lock :
    (∀ (e : ElementQ) (atlas : TextureAtlasQ) (textures : List (String × String)) (a b : ℤ),
      (element_mesh e atlas textures (a, b)).1.positions
          = (element_mesh e atlas textures (0, 0)).1.positions
      ∧ (element_mesh e atlas textures (a, b)).1.normals
          = (element_mesh e atlas textures (0, 0)).1.normals
      ∧ (element_mesh e atlas textures (a, b)).1.indices
          = (element_mesh e atlas textures (0, 0)).1.indices
      ∧ (element_mesh e atlas textures (a, b)).2 = (element_mesh e atlas textures (0, 0)).2
      ∧ (element_mesh e atlas textures (a, b)).1.uvs
          = (elementPreUVs e textures).map (uvXform atlas (a, b))
      ∧ (element_mesh e atlas textures (0, 0)).1.uvs
          = (elementPreUVs e textures).map fun v => getAtlasUVs (atlas.getTexDetails v.2.2) v.1)
    ∧ (∀ orig uv : Vec2Q, rotate_uv_with_orig 0 orig uv = uv)
    ∧ (∀ e : ElementQ,
        ((faceTable e).filter (fun fe => !fe.useXRot)).map FaceEntry.normal
            = [⟨0, 1, 0⟩, ⟨0, -1, 0⟩]
        ∧ ((faceTable e).filter (fun fe => fe.useXRot)).map FaceEntry.normal
            = [⟨1, 0, 0⟩, ⟨-1, 0, 0⟩, ⟨0, 0, 1⟩, ⟨0, 0, -1⟩])
    ∧ (∀ m : ProcessedModelQ,
        (m.uv_lock = true → uvRotOf m = (-m.model_rot.1, -m.model_rot.2))
        ∧ (m.uv_lock = false → uvRotOf m = (0, 0)))
    ∧ (∀ (models : List ProcessedModelQ) (atlas : TextureAtlasQ),
        (create_mesh_for_block models atlas).1.positions
          = (create_mesh_for_block (models.map fun m => { m with uv_lock := false })
              atlas).1.positions) := by
  refine ⟨fun e atlas textures a b => ?_, rotate_uv_zero, fun e => ⟨rfl, rfl⟩,
    fun m => ⟨fun h => by simp [uvRotOf, h], fun h => by simp [uvRotOf, h]⟩,
    fun models atlas => ?_⟩
  · obtain ⟨hp1, hn1, hu1, hi1, hb1⟩ := element_mesh_spec e atlas textures (a, b)
    obtain ⟨hp0, hn0, hu0, hi0, hb0⟩ := element_mesh_spec e atlas textures (0, 0)
    refine ⟨hp1.trans hp0.symm, hn1.trans hn0.symm, hi1.trans hi0.symm,
      hb1.trans hb0.symm, hu1, ?_⟩
    rw [hu0]
    exact List.map_congr_left fun v _ => uvXform_zero atlas v
  · rw [create_spec, create_spec]
    show (mconcat _).positions = (mconcat _).positions
    rw [mconcat_positions, mconcat_positions, List.flatMap_map]
    rw [List.flatMap_assoc, List.flatMap_assoc]
    refine List.flatMap_congr fun m _ => ?_
    rw [List.flatMap_map, List.flatMap_map]
    refine List.flatMap_congr fun e _ => ?_
    show (elemBlockMesh atlas m e).positions
        = (elemBlockMesh atlas { m with uv_lock := false } e).positions
    rw [elemBlockMesh_positions, elemBlockMesh_positions]

/-- C4, witness: the wiring component of the theorem applied at a concrete
locked model — the UV rotation handed to the element mesher is the negated
model rotation. -/
theorem C4_witness :
    uvRotOf ⟨(0, 90), true, [], []⟩ = (-((0:ℤ), (90:ℤ)).1, -((0:ℤ), (90:ℤ)).2) :=
  (C4_uv_lock.2.2.2.1 ⟨(0, 90), true, [], []⟩).1 rfl

/-! ### C3: element recentering in the `src/mesh.rs` mesher -/

/-- Helper: the per-element list of the `src/mesh.rs` block mesher. -/
lemma create_v2_spec (models : List ProcessedModelV2) (atlas : TextureAtlasQ) :
    create_mesh_for_block_v2 models atlas
      = models.flatMap fun m => m.elements.map (buildElementV2 atlas m) := by
  unfold create_mesh_for_block_v2
  suffices h : ∀ (ms : List ProcessedModelV2) (acc : List ElementMeshV2),
      ms.foldl (fun acc m =>
          m.elements.foldl (fun acc e => acc ++ [buildElementV2 atlas m e]) acc) acc
        = acc ++ ms.flatMap fun m => m.elements.map (buildElementV2 atlas m) by
    simpa using h models []
  intro ms
  induction ms with
  | nil => intro acc; simp
  | cons m rest ih =>
    intro acc
    show rest.foldl _ (m.elements.foldl _ acc) = _
    have hin : ∀ (es : List ElementQ) (acc : List ElementMeshV2),
        es.foldl (fun acc e => acc ++ [buildElementV2 atlas m e]) acc
          = acc ++ es.map (buildElementV2 atlas m) := by
      intro es
      induction es with
      | nil => intro acc; simp
      | cons e esr ihe =>
        intro acc
        show esr.foldl _ (acc ++ [buildElementV2 atlas m e]) = _
        rw [ihe]
        simp
    rw [hin, ih]
    simp

/-- C3, counterexample: for an 8×8×8 element at the block corner under a
model Y-rotation of 90 degrees, the retained placement offset is the
element's unrotated bounding-box midpoint (4, 4, 4), while the rotated
midpoint is (12, 4, 4) — the `ElementMesh` offset is not the rotated
midpoint the claim names. -/
theorem C3_counterexample :
    (buildElementV2 atlasC3 modelC3 elemC3).offset = ⟨4, 4, 4⟩
    ∧ rot_vert_with_orig (modelRotFunV2 modelC3.model_rot) ⟨8, 8, 8⟩
        (rot_vert_with_orig (elemRotFun elemC3.rotation) elemC3.rotation.origin
          (⟨4, 4, 4⟩ : Vec3Q)) = ⟨12, 4, 4⟩
    ∧ (buildElementV2 atlasC3 modelC3 elemC3).offset
        ≠ rot_vert_with_orig (modelRotFunV2 modelC3.model_rot) ⟨8, 8, 8⟩
            (rot_vert_with_orig (elemRotFun elemC3.rotation) elemC3.rotation.origin
              (⟨4, 4, 4⟩ : Vec3Q)) := by
  have h1 : (buildElementV2 atlasC3 modelC3 elemC3).offset = ⟨4, 4, 4⟩ := by
    show elementOffset elemC3 = _
    unfold elementOffset elemC3 Vec3Q.scale
    norm_num
  have h2 : rot_vert_with_orig (modelRotFunV2 modelC3.model_rot) ⟨8, 8, 8⟩
      (rot_vert_with_orig (elemRotFun elemC3.rotation) elemC3.rotation.origin
        (⟨4, 4, 4⟩ : Vec3Q)) = ⟨12, 4, 4⟩ := by
    unfold modelC3 elemC3 modelRotFunV2 elemRotFun rotAxis rot_vert_with_orig rotXr rotYr
      rotDeg cosQ sinQ
    norm_num
  refine ⟨h1, h2, ?_⟩
  rw [h1, h2]
  intro h
  have := congrArg Vec3Q.x h
  norm_num at this

/-- C3, amended: the `src/mesh.rs` mesher stores, per element, the rotated
vertex positions minus the element's UNROTATED bounding-box midpoint
`from + (to - from) / 2 = (from + to) / 2`, retains exactly that unrotated
midpoint as the `ElementMesh` placement offset, and emits one `ElementMesh`
per element of each model, in declared order. -/
theorem C3_recenter (models : List ProcessedModelV2) (atlas : TextureAtlasQ) :
    create_mesh_for_block_v2 models atlas
      = (models.flatMap fun m => m.elements.map (buildElementV2 atlas m))
    ∧ ∀ (m : ProcessedModelV2) (e : ElementQ),
        (buildElementV2 atlas m e).offset = Vec3Q.scale (1/2) (e.efrom + e.eto)
        ∧ (buildElementV2 atlas m e).data.positions
            = (element_mesh_v2 e atlas m.textures).1.positions.map fun p =>
                rot_vert_with_orig (modelRotFunV2 m.model_rot) ⟨8, 8, 8⟩
                  (rot_vert_with_orig (elemRotFun e.rotation) e.rotation.origin p)
                - Vec3Q.scale (1/2) (e.efrom + e.eto) := by
  refine ⟨create_v2_spec models atlas, fun m e => ?_⟩
  have hoff : elementOffset e = Vec3Q.scale (1/2) (e.efrom + e.eto) := by
    cases e with
    | mk ef et up down east west south north rot =>
      cases ef with
      | mk fx fy fz =>
        cases et with
        | mk tx ty tz =>
          unfold elementOffset Vec3Q.scale
          simp only [Vec3Q.add_def, Vec3Q.sub_def, Vec3Q.mk.injEq]
          refine ⟨by ring, by ring, by ring⟩
  constructor
  · show elementOffset e = _
    exact hoff
  · show (element_mesh_v2 e atlas m.textures).1.positions.map _ = _
    rw [← hoff]

/-- C3, witness: the amended theorem applied to the concrete corner
element — its stored offset is the unrotated midpoint (4, 4, 4). -/
theorem C3_witness :
    (buildElementV2 atlasC3 modelC3 elemC3).offset
      = Vec3Q.scale (1/2) (elemC3.efrom + elemC3.eto) :=
  ((C3_recenter [modelC3] atlasC3).2 modelC3 elemC3).1

/-! ### C5: multipart case resolution -/

/-- Helper: taking the first candidate of cases with nonempty model lists
succeeds and yields exactly the first candidates. -/
lemma firstModels_filter (p : MultipartCaseQ → Bool) :
    ∀ cases : List MultipartCaseQ, (∀ c ∈ cases, p c = true → c.models ≠ []) →
      firstModels (cases.filter p)
        = some ((cases.filter p).map fun c => c.models.headD default) := by
  intro cases
  induction cases with
  | nil => intro _; rfl
  | cons c rest ih =>
    intro h
    have hrest := ih fun x hx hp => h x (List.mem_cons_of_mem c hx) hp
    rw [List.filter_cons]
    split
    · next hp =>
      have hne : c.models ≠ [] := h c (List.mem_cons_self c rest) hp
      cases hm : c.models with
      | nil => exact absurd hm hne
      | cons a t => simp [firstModels, hm, hrest]
    · exact hrest

/-- C5: for every block-state string, the resolver parses the properties,
walks the declared multipart cases in declared order, and for every case
whose predicate is satisfied contributes exactly its first declared
candidate model — the output is the concatenation of those first
candidates in declared case order, matching cases being additive. -/
theorem C5_multipart (cases : List MultipartCaseQ) (block : String)
    (props : List (String × String))
    (h1 : decode_props (parseBlockKey block).2 = some props)
    (h2 : ∀ c ∈ cases, appliesCase props c = true → c.models ≠ []) :
    get_block_model cases block
      = some ((cases.filter (appliesCase props)).map fun c => c.models.headD default) := by
  unfold get_block_model
  rw [h1, Option.some_bind]
  exact firstModels_filter (appliesCase props) cases h2

/-- C5, witness: the theorem applied to a concrete block state
`power=1,east=false` against three declared cases — the constrained case
accepting `power ∈ {1,2}` and the unconstrained case both contribute their
first candidates, in declared order; the case requiring `east=true` does
not. -/
theorem C5_witness :
    get_block_model
        [⟨[("power", ["1", "2"])], [⟨"m1", 0, 0, false⟩]⟩,
         ⟨[], [⟨"m2", 90, 0, true⟩, ⟨"m2b", 0, 0, false⟩]⟩,
         ⟨[("east", ["true"])], [⟨"m3", 0, 0, false⟩]⟩]
        "minecraft:redstone_wire[power=1,east=false]"
      = some (([⟨[("power", ["1", "2"])], [⟨"m1", 0, 0, false⟩]⟩,
          ⟨[], [⟨"m2", 90, 0, true⟩, ⟨"m2b", 0, 0, false⟩]⟩,
          ⟨[("east", ["true"])], [⟨"m3", 0, 0, false⟩]⟩].filter
            (appliesCase [("east", "false"), ("power", "1")])).map
          fun c => c.models.headD default) :=
  C5_multipart _ _ [("east", "false"), ("power", "1")] (by decide) (by decide)

/-! ### C8: parent-chain merge order -/

/-- Helper: association-list lookup distributes over append. -/
lemma lookupA_append {α : Type} (l1 l2 : List (String × α)) (k : String) :
    lookupA (l1 ++ l2) k = (lookupA l1 k).or (lookupA l2 k) := by
  induction l1 with
  | nil => simp [lookupA, Option.or]
  | cons kv rest ih =>
    by_cases hk : kv.1 = k
    · simp [lookupA, hk, Option.or]
    · simp [lookupA, hk, ih]

/-- Helper: lookup in the `or_insert`-filtered part of a merge. -/
lemma lookupA_filter_none (self other : List (String × String)) (k : String) :
    lookupA (other.filter fun kv => (lookupA self kv.1).isNone) k
      = if lookupA self k = none then lookupA other k else none := by
  induction other with
  | nil => simp [lookupA]
  | cons kv rest ih =>
    rw [List.filter_cons]
    cases hc : lookupA self kv.1 with
    | none =>
      simp only [hc, Option.isNone_none, if_pos rfl]
      by_cases hk : kv.1 = k
      · subst hk
        simp [lookupA, hc]
      · simp [lookupA, hk, ih]
    | some v0 =>
      simp only [hc, Option.isNone_some, Bool.false_eq_true, if_false]
      by_cases hk : kv.1 = k
      · subst hk
        rw [ih]
        simp [lookupA, hc]
      · simp [lookupA, hk, ih]

/-- Helper: lookup through `Textures::merge` — the current model's binding
wins, the accumulated one fills the gaps. -/
lemma lookupA_merge (self other : List (String × String)) (k : String) :
    lookupA (mergeTextures self other) k = (lookupA self k).or (lookupA other k) := by
  unfold mergeTextures
  rw [lookupA_append, lookupA_filter_none]
  cases h : lookupA self k with
  | none => simp [h, Option.or]
  | some v => simp [h, Option.or]

/-- Helper: derived-first chain lookup distributes over append. -/
lemma chainLookup_append (l1 l2 : List RawModelQ) (k : String) :
    chainLookup (l1 ++ l2) k = (chainLookup l1 k).or (chainLookup l2 k) := by
  induction l1 with
  | nil => simp [chainLookup, Option.or]
  | cons m rest ih =>
    show chainLookup (m :: (rest ++ l2)) k = _
    cases hm : m.textures with
    | none => simp [chainLookup, hm, ih]
    | some t =>
      cases ht : lookupA t k with
      | none => simp [chainLookup, hm, ht, ih]
      | some v => simp [chainLookup, hm, ht, Option.or]

/-- Helper: the merge fold, over the reversed chain with any accumulator. -/
lemma mergeFold_spec :
    ∀ (l : List RawModelQ) (acc : List (String × String) × List ElementQ),
      (l.foldl mergeStep acc).2 = acc.2 ++ (l.flatMap fun m => m.elements.getD [])
      ∧ ∀ k, lookupA (l.foldl mergeStep acc).1 k
          = (chainLookup l.reverse k).or (lookupA acc.1 k) := by
  intro l
  induction l with
  | nil =>
    intro acc
    refine ⟨by simp, fun k => by simp [chainLookup, Option.or]⟩
  | cons m rest ih =>
    intro acc
    obtain ⟨ihel, ihlk⟩ := ih (mergeStep acc m)
    constructor
    · show (rest.foldl mergeStep (mergeStep acc m)).2 = _
      rw [ihel]
      have hstep : (mergeStep acc m).2 = acc.2 ++ m.elements.getD [] := by
        unfold mergeStep
        cases m.elements <;> simp
      rw [hstep, List.flatMap_cons, List.append_assoc]
    · intro k
      show lookupA (rest.foldl mergeStep (mergeStep acc m)).1 k = _
      rw [ihlk k]
      have hstep : lookupA (mergeStep acc m).1 k
          = ((m.textures.bind fun t => lookupA t k).or (lookupA acc.1 k)) := by
        unfold mergeStep
        cases m.textures with
        | none => simp [Option.or]
        | some t => simp [lookupA_merge]
      rw [hstep]
      have hrev : (m :: rest).reverse = rest.reverse ++ [m] := by simp
      rw [hrev, chainLookup_append]
      have hm : chainLookup [m] k = (m.textures.bind fun t => lookupA t k) := by
        unfold chainLookup
        cases m.textures with
        | none => rfl
        | some t =>
          cases ht : lookupA t k <;> simp [ht, chainLookup]
      rw [hm]
      cases chainLookup rest.reverse k <;>
        cases m.textures.bind fun t => lookupA t k <;> simp [Option.or]

/-- C8: for a loaded parent chain (requested model first, root ancestor
last), the merge loop concatenates element lists without deduplication in
ancestor-to-derived traversal order, and resolves each texture key to the
binding of the most derived model that defines it — an entry from a later
(more derived) model overwrites any same-key entry of an earlier one. -/
theorem C8_merge_order (chain : List RawModelQ) :
    (mergeChain chain).2 = chain.reverse.flatMap (fun m => m.elements.getD [])
    ∧ ∀ k, lookupA (mergeChain chain).1 k = chainLookup chain k := by
  obtain ⟨hel, hlk⟩ := mergeFold_spec chain.reverse ([], [])
  refine ⟨by simpa [mergeChain] using hel, fun k => ?_⟩
  have h2 := hlk k
  rw [List.reverse_reverse] at h2
  show lookupA (chain.reverse.foldl mergeStep ([], [])).1 k = _
  rw [h2]
  cases chainLookup chain k <;> simp [lookupA, Option.or]

end McRenderer
